import Mathlib

/-!
Verification development for the `zeta` pipeline (Python sources:
`shared_utils.py`, `generate_topics.py`, `generate_prompts.py`,
`generate_problems.py`, `db_query.py`).

Python strings are modelled as `List Char`; the Python string operations
used by the source (`find`, slicing, `strip`, the `in` substring test)
are given executable definitions with CPython semantics on the argument
ranges the source exercises.  Braces inside string literals are written
with `\x7b` / `\x7d` escapes.
-/

/-- `occursAt s sub i`: the substring `sub` occurs in `s` starting at index `i`. -/
def occursAt (s sub : List Char) (i : Nat) : Bool :=
  sub.isPrefixOf (s.drop i)

/-- First index at which `sub` occurs in `s` (CPython `str.find` without the
`-1` encoding).  Structural scan from the left. -/
def findSub (sub : List Char) : List Char → Option Nat
  | [] => if sub.isPrefixOf ([] : List Char) then some 0 else none
  | c :: t =>
    if sub.isPrefixOf (c :: t) then some 0
    else (findSub sub t).map (· + 1)

/-- Python's `sub in s` substring test. -/
def strContains (s sub : List Char) : Bool :=
  (findSub sub s).isSome

/-- Python `s.find(sub)`: first index of occurrence, `-1` when absent. -/
def pyFind (s sub : List Char) : Int :=
  match findSub sub s with
  | some i => (i : Int)
  | none => -1

/-- Normalize the `start` argument of Python `str.find`: a negative value
counts from the end, as in CPython. -/
def pyStart (n : Nat) (start : Int) : Nat :=
  (if start < 0 then max (start + n) 0 else start).toNat

/-- Python `s.find(sub, start)`: first index `≥ start` of an occurrence,
`-1` when absent. -/
def pyFindFrom (s sub : List Char) (start : Int) : Int :=
  if s.length < pyStart s.length start then -1
  else
    match findSub sub (s.drop (pyStart s.length start)) with
    | some i => ((pyStart s.length start + i : Nat) : Int)
    | none => -1

/-- Normalize a Python slice index against a length `n`: negative indices
count from the end, out-of-range indices clamp. -/
def pyIdx (n : Nat) (i : Int) : Nat :=
  (if i < 0 then max (i + n) 0 else min i n).toNat

/-- Python slice `s[a:b]` for integer bounds. -/
def pySlice (s : List Char) (a b : Int) : List Char :=
  (s.take (pyIdx s.length b)).drop (pyIdx s.length a)

/-- The ASCII whitespace characters removed by Python `str.strip()`
(the inputs of this pipeline are ASCII). -/
def isPySpace (c : Char) : Bool :=
  c = ' ' || c = '\t' || c = '\n' || c = '\r' || c = '\x0b' || c = '\x0c'

/-- Python `s.strip()`. -/
def pyStrip (s : List Char) : List Char :=
  ((s.dropWhile isPySpace).reverse.dropWhile isPySpace).reverse

/-- The brace-depth scan of `clean_json_response` (shared_utils.py lines
108-116): walk the characters from the first `\x7b`, keeping a running
count; report the absolute index of the `\x7d` that returns the count to
zero, or `none` when the loop falls through. -/
def braceScan : List Char → Int → Nat → Option Nat
  | [], _, _ => none
  | c :: rest, count, i =>
    if c = '\x7b' then braceScan rest (count + 1) (i + 1)
    else if c = '\x7d' then
      if count - 1 = 0 then some i
      else braceScan rest (count - 1) (i + 1)
    else braceScan rest count (i + 1)

/-- `clean_json_response` (shared_utils.py lines 87-119), translated
branch for branch:
1. a triple-backtick `json`-tagged fence: slice from just after the tag to
   the next triple backtick and strip;
2. single-backtick-wrapped braces: slice from the `\x7b` after the first
   `` `\x7b `` through the `\x7d` of the first following `` \x7d` `` and strip;
3. both braces present: brace-depth scan from the first `\x7b`; on a match
   return the stripped span, otherwise fall through;
4. otherwise return the input unchanged. -/
def clean_json_response (response : List Char) : List Char :=
  if strContains response "```json".data && strContains response "```".data then
    pyStrip (pySlice response (pyFind response "```json".data + 7)
      (pyFindFrom response "```".data (pyFind response "```json".data + 7)))
  else if strContains response "`\x7b".data && strContains response "\x7d`".data then
    pyStrip (pySlice response (pyFind response "`\x7b".data + 1)
      (pyFindFrom response "\x7d`".data (pyFind response "`\x7b".data + 1) + 1))
  else if strContains response "\x7b".data && strContains response "\x7d".data then
    match braceScan (response.drop (pyFind response "\x7b".data).toNat) 0
        (pyFind response "\x7b".data).toNat with
    | some i => pyStrip (pySlice response (pyFind response "\x7b".data) ((i : Int) + 1))
    | none => response
  else response

/-- Contribution of one character to the running brace count. -/
def charDepth (c : Char) : Int :=
  if c = '\x7b' then 1 else if c = '\x7d' then -1 else 0

/-- Net brace depth of a character list: opening braces minus closing braces. -/
def netDepth : List Char → Int
  | [] => 0
  | c :: t => charDepth c + netDepth t

/-- A balanced top-level brace span: starts with `\x7b`, ends with `\x7d`,
net depth zero, and every proper non-empty prefix keeps positive depth
(so the final `\x7d` is the first one to return the counter to zero). -/
def balancedSpan (body : List Char) : Prop :=
  body.head? = some '\x7b' ∧ body.getLast? = some '\x7d' ∧ netDepth body = 0 ∧
    ∀ k, k < body.length → 0 < k → 0 < netDepth (body.take k)

/-- From some position on, no closing brace ever returns the running brace
count (started at zero there) to zero. -/
def scanNeverCloses (l : List Char) : Prop :=
  ∀ k, k < l.length → l[k]? = some '\x7d' → netDepth (l.take (k + 1)) ≠ 0

instance balancedSpanDecidable (body : List Char) : Decidable (balancedSpan body) := by
  unfold balancedSpan
  infer_instance

instance scanNeverClosesDecidable (l : List Char) : Decidable (scanNeverCloses l) := by
  unfold scanNeverCloses
  infer_instance

/-! ### JSON values, the API client, the relational store and the stages -/

/-- Shallow JSON-like values for the parsed API replies the pipeline
inspects: strings, arrays, objects with ordered string-keyed fields, and a
constructor for values the scripts never look inside (numbers, booleans,
null). -/
inductive JVal where
  | str (s : List Char) : JVal
  | arr (l : List JVal) : JVal
  | obj (fields : List (List Char × JVal)) : JVal
  | other : JVal

/-- Python equality between the string `k` and a JSON value (`str == x` is
`False` for non-strings, no exception). -/
def jvalIsStr (k : List Char) : JVal → Bool
  | .str s => s == k
  | _ => false

/-- Python dict key access `fields[k]` (first matching key; the generated
dicts have distinct keys). -/
def lookupField (fields : List (List Char × JVal)) (k : List Char) : Option JVal :=
  (fields.find? (fun p => p.1 == k)).map (fun p => p.2)

/-- Outcome of one `call_deepseek_api` invocation as seen by a caller. -/
inductive ApiOutcome (J : Type) where
  | parsed (v : J) : ApiOutcome J
  | raw (s : List Char) : ApiOutcome J
  | exitFailure : ApiOutcome J
deriving DecidableEq

/-- `call_deepseek_api` (shared_utils.py lines 31-85) after the HTTP POST is
abstracted: `transport` is the extracted completion text (`none` models a
transport or HTTP error, on which the source prints diagnostics and calls
`sys.exit(1)`, here `exitFailure`), and `parse` abstracts `json.loads`
(`none` = `json.JSONDecodeError`).  With `expect_json` the content is first
normalized by `clean_json_response`; on parse failure the source returns
the reassigned `content` variable, i.e. the normalized text. -/
def call_deepseek_api {J : Type} (parse : List Char → Option J)
    (transport : Option (List Char)) (expect_json : Bool) : ApiOutcome J :=
  match transport with
  | none => ApiOutcome.exitFailure
  | some content =>
    if expect_json then
      match parse (clean_json_response content) with
      | some v => ApiOutcome.parsed v
      | none => ApiOutcome.raw (clean_json_response content)
    else ApiOutcome.raw content

/-- A crude executable stand-in for `json.loads` used only to instantiate
the abstract parser at concrete inputs: it accepts exactly the texts that
start with an opening brace, which agrees with `json.loads` on every input
it is evaluated at in this file. -/
def parseStub : List Char → Option Unit :=
  fun s => if s.head? = some '\x7b' then some () else none

/-- A record with the three text fields the problems loop keeps
(generate_problems.py lines 204-208); field values are arbitrary JSON
values since the source checks key presence only. -/
structure CleanProblem where
  problem : JVal
  answer : JVal
  solution : JVal

/-- A row of the `problems` table. -/
structure ProblemRow where
  id : Nat
  problem : JVal
  answer : JVal
  solution : JVal
  prompt_title : List Char

/-- A row of the `tags` table. -/
structure TagRow where
  id : Nat
  name : List Char

/-- The three tables of `problems.db` plus the AUTOINCREMENT counters
(`setup_database`, generate_problems.py lines 6-42). -/
structure DB where
  problems : List ProblemRow
  tags : List TagRow
  problem_tags : List (Nat × Nat)
  problems_seq : Nat
  tags_seq : Nat

/-- `setup_database` on a fresh file: empty tables, AUTOINCREMENT at 1. -/
def setup_database : DB :=
  ⟨[], [], [], 1, 1⟩

/-- `INSERT OR IGNORE INTO tags (name) VALUES (?)` (lines 69-71). -/
def upsertTag (db : DB) (name : List Char) : DB :=
  if db.tags.any (fun r => r.name == name) then db
  else { db with tags := db.tags ++ [⟨db.tags_seq, name⟩], tags_seq := db.tags_seq + 1 }

/-- `SELECT id FROM tags WHERE name = ?` followed by `fetchone()[0]`
(lines 74-75). -/
def lookupTagId (db : DB) (name : List Char) : Option Nat :=
  (db.tags.find? (fun r => r.name == name)).map (fun r => r.id)

/-- `INSERT INTO problem_tags (problem_id, tag_id) VALUES (?, ?)` (lines
78-80): a plain insert, so a duplicate of the composite primary key raises
an integrity error (`none`). -/
def insertProblemTag (db : DB) (pid tid : Nat) : Option DB :=
  if (pid, tid) ∈ db.problem_tags then none
  else some { db with problem_tags := db.problem_tags ++ [(pid, tid)] }

/-- One iteration of the tag loop of `save_problem_to_db` (lines 67-80). -/
def saveTagLink (pid : Nat) (db : DB) (tag : List Char) : Option DB :=
  match lookupTagId (upsertTag db tag) tag with
  | some tid => insertProblemTag (upsertTag db tag) pid tid
  | none => none

/-- `save_problem_to_db` (generate_problems.py lines 54-83): insert the
problem row (its id is the AUTOINCREMENT value), then for each tag
upsert-or-ignore, reselect its id, and link the pair; an integrity error
anywhere surfaces as `none` (the exception propagates to the caller's
per-item handler). -/
def save_problem_to_db (db : DB) (p : CleanProblem) (title : List Char)
    (tags : List (List Char)) : Option DB :=
  tags.foldlM (saveTagLink db.problems_seq)
    { db with
      problems := db.problems
        ++ [⟨db.problems_seq, p.problem, p.answer, p.solution, title⟩],
      problems_seq := db.problems_seq + 1 }

/-- Well-formedness of the store: unique tag names (the `UNIQUE` column
constraint) and ids (primary keys), and all ids below the AUTOINCREMENT
counters.  Holds of `setup_database` and is preserved by the insert path. -/
def dbWf (db : DB) : Prop :=
  (db.tags.map (fun r => r.name)).Nodup ∧
  (db.tags.map (fun r => r.id)).Nodup ∧
  (∀ r ∈ db.tags, r.id < db.tags_seq) ∧
  (∀ r ∈ db.problems, r.id < db.problems_seq) ∧
  (∀ pr ∈ db.problem_tags, pr.1 < db.problems_seq) ∧
  (∀ pr ∈ db.problem_tags, pr.2 < db.tags_seq)

instance dbWfDecidable (db : DB) : Decidable (dbWf db) := by
  unfold dbWf
  infer_instance

/-- Python key-membership `"k" in x` as the problems loop performs it
(generate_problems.py line 202): key lookup for dicts, substring test for
strings, element-equality membership for lists; `none` models the
`TypeError` raised for other values. -/
def pyHasKey (e : JVal) (k : List Char) : Option Bool :=
  match e with
  | .obj fields => some ((fields.find? (fun p => p.1 == k)).isSome)
  | .str s => some (strContains s k)
  | .arr l => some (l.any (fun v => jvalIsStr k v))
  | .other => none

/-- The per-entry validation of the problems loop, as a pure filter: keep a
dict entry exactly when the three text fields are present. -/
def entryToClean (e : JVal) : Option CleanProblem :=
  match e with
  | .obj fields =>
    match lookupField fields "problem".data, lookupField fields "answer".data,
        lookupField fields "solution".data with
    | some p, some a, some sol => some ⟨p, a, sol⟩
    | _, _, _ => none
  | _ => none

/-- One entry of a problems batch (generate_problems.py lines 201-212):
`some (some p)` = entry kept with its three fields, `some none` = entry
skipped, `none` = the membership test or the indexing raised and the
batch's exception handler takes over. -/
def entryAction (e : JVal) : Option (Option CleanProblem) :=
  match pyHasKey e "problem".data, pyHasKey e "answer".data,
      pyHasKey e "solution".data with
  | some hp, some ha, some hs =>
    if hp && ha && hs then
      match e with
      | .obj fields =>
        match lookupField fields "problem".data, lookupField fields "answer".data,
            lookupField fields "solution".data with
        | some p, some a, some sol => some (some ⟨p, a, sol⟩)
        | _, _, _ => some none
      | _ => none
    else some none
  | _, _, _ => none

/-- The problems-batch loop (generate_problems.py lines 201-213): process
entries in order, saving the kept ones; `none` models an exception
escaping to the per-item handler. -/
def processProblemsBatch (db : DB) (batch : List JVal) (title : List Char)
    (tags : List (List Char)) : Option DB :=
  batch.foldlM
    (fun db e =>
      match entryAction e with
      | some (some p) => save_problem_to_db db p title tags
      | some none => some db
      | none => none)
    db

/-- Shape check of one problems response (generate_problems.py lines
195-198): a dict whose `problems` key holds a list. -/
def problemsOf (r : JVal) : Option (List JVal) :=
  match r with
  | .obj fields =>
    match lookupField fields "problems".data with
    | some (.arr l) => some l
    | _ => none
  | _ => none

/-- Processing of one prompt item's response (generate_problems.py lines
180-226): a malformed or wrongly-shaped response, or an exception inside
the batch, leaves the store as it was and control flow continues with the
next item. -/
def processProblemsResponse (db : DB) (r : JVal) (title : List Char)
    (tags : List (List Char)) : DB :=
  match problemsOf r with
  | some batch =>
    match processProblemsBatch db batch title tags with
    | some dbOut => dbOut
    | none => db
  | none => db

/-- The problems-stage loop over all prompt items, each carrying the
response obtained for it plus its title and tag list. -/
def problemsStage (db : DB) (items : List (JVal × List Char × List (List Char))) : DB :=
  items.foldl (fun db it => processProblemsResponse db it.1 it.2.1 it.2.2) db

/-- Shape check of one topic-breakdown response (generate_prompts.py lines
111-113, identically generate_topics.py lines 95-97): a dict whose
`problem_types` key holds a list; its entries are not validated further. -/
def processTopicResponse (r : JVal) : Option (List JVal) :=
  match r with
  | .obj fields =>
    match lookupField fields "problem_types".data with
    | some (.arr l) => some l
    | _ => none
  | _ => none

/-- `generate_topic_breakdowns` (generate_prompts.py lines 69-131 and
generate_topics.py lines 53-121): one API call per topic (`api` maps a
topic to the parsed reply; the first component records the calls made),
extending `all_prompts` with each well-shaped `problem_types` list and
skipping items whose response is malformed.  `save_to_json` then writes
the accumulated list verbatim, so the aggregate file content is the second
component. -/
def generate_topic_breakdowns (topics : List (List Char)) (api : List Char → JVal) :
    List (List Char) × List JVal :=
  topics.foldl
    (fun acc t =>
      (acc.1 ++ [t],
        match processTopicResponse (api t) with
        | some l => acc.2 ++ l
        | none => acc.2))
    ([], [])

/-- A row as printed by the query tool's `list` command. -/
structure QueryRow where
  id : Nat
  problem : JVal
  prompt_title : List Char
  tags : Option (List Char)

/-- The joined tag names of one problem, in junction-table order: the
`LEFT JOIN problem_tags / LEFT JOIN tags` of db_query.py lines 20-24
restricted to one `problem_id` (a dangling `tag_id` contributes NULL,
which `GROUP_CONCAT` skips). -/
def tagNamesOf (db : DB) (pid : Nat) : List (List Char) :=
  (db.problem_tags.filter (fun pr => pr.1 == pid)).filterMap
    (fun pr => (db.tags.find? (fun r => r.id == pr.2)).map (fun r => r.name))

/-- The tag-filter subquery of db_query.py lines 29-35: the problem is
linked to a tag with the given name. -/
def hasTag (db : DB) (pid : Nat) (t : List Char) : Bool :=
  db.problem_tags.any (fun pr => pr.1 == pid
    && db.tags.any (fun r => r.id == pr.2 && r.name == t))

/-- SQLite `GROUP_CONCAT(t.name, ', ')`: NULL on an empty group, otherwise
the names joined with a comma-space separator in scan order. -/
def sqlGroupConcat (l : List (List Char)) : Option (List Char) :=
  match l with
  | [] => none
  | x :: xs => some (xs.foldl (fun acc s => acc ++ ", ".data ++ s) x)

/-- The FROM/WHERE part of the `list` query: all problems, or those passing
the tag-filter subquery, in table order. -/
def queryBase (db : DB) (tagFilter : Option (List Char)) : List ProblemRow :=
  match tagFilter with
  | some t => db.problems.filter (fun p => hasTag db p.id t)
  | none => db.problems

/-- The filtered, grouped rows of `list_problems` before the LIMIT clause:
problems in table order (insertion order: the autoincrement primary key is
the rowid, which the `GROUP BY p.id` scan follows), each with its
aggregated tag string. -/
def queryRows (db : DB) (tagFilter : Option (List Char)) : List QueryRow :=
  (queryBase db tagFilter).map
    (fun p => ⟨p.id, p.problem, p.prompt_title, sqlGroupConcat (tagNamesOf db p.id)⟩)

/-- `list_problems` (db_query.py lines 15-59): optional tag filter,
grouping with `GROUP_CONCAT`, optional LIMIT. -/
def list_problems (db : DB) (tagFilter : Option (List Char)) (limit : Option Nat) :
    List QueryRow :=
  match limit with
  | some n => (queryRows db tagFilter).take n
  | none => queryRows db tagFilter

example : clean_json_response "```json\n\x7b\"a\": 1\x7d\n```".data = "\x7b\"a\": 1\x7d".data := by decide
example : clean_json_response "text `\x7b\"a\": 1\x7d` more".data = "\x7b\"a\": 1\x7d".data := by decide
example : clean_json_response "pre \x7b\"a\": \x7b\"b\": 2\x7d\x7d post".data = "\x7b\"a\": \x7b\"b\": 2\x7d\x7d".data := by decide
example : clean_json_response "no json here".data = "no json here".data := by decide
example : clean_json_response "open \x7b only".data = "open \x7b only".data := by decide
example : clean_json_response "```json hi```".data = "hi".data := by decide

/-! ### Lemmas about the string primitives -/

theorem findSub_sound {sub s : List Char} {i : Nat} (h : findSub sub s = some i) :
    sub.isPrefixOf (s.drop i) = true := by
  induction s generalizing i with
  | nil =>
    unfold findSub at h
    split at h
    · simp_all
    · simp_all
  | cons c t ih =>
    unfold findSub at h
    split at h
    · rename_i hp
      simp only [Option.some.injEq] at h
      subst h
      simpa using hp
    · rcases Option.map_eq_some'.mp h with ⟨j, hj, rfl⟩
      simpa using ih hj

theorem findSub_isSome_of_occurs {sub s : List Char} {i : Nat}
    (h : occursAt s sub i = true) : (findSub sub s).isSome = true := by
  induction s generalizing i with
  | nil =>
    unfold occursAt at h
    simp only [List.drop_nil] at h
    unfold findSub
    simp [h]
  | cons c t ih =>
    unfold findSub
    split
    · simp
    · rename_i hp
      cases i with
      | zero =>
        unfold occursAt at h
        simp only [List.drop_zero] at h
        exact absurd h hp
      | succ j =>
        unfold occursAt at h
        simp only [List.drop_succ_cons] at h
        have := ih (i := j) h
        simpa using this

theorem strContains_iff {s sub : List Char} :
    strContains s sub = true ↔ ∃ i, occursAt s sub i = true := by
  constructor
  · intro h
    unfold strContains at h
    rcases Option.isSome_iff_exists.mp h with ⟨i, hi⟩
    exact ⟨i, findSub_sound hi⟩
  · rintro ⟨i, hi⟩
    exact findSub_isSome_of_occurs hi

theorem strContains_subset {s sub : List Char} (h : strContains s sub = true) :
    ∀ c ∈ sub, c ∈ s := by
  intro c hc
  rcases strContains_iff.mp h with ⟨i, hi⟩
  unfold occursAt at hi
  have hpre : sub <+: s.drop i := List.isPrefixOf_iff_prefix.mp hi
  exact List.drop_subset i s (hpre.subset hc)

theorem strContains_single {s : List Char} {c : Char} :
    strContains s [c] = true ↔ c ∈ s := by
  constructor
  · intro h
    exact strContains_subset h c (by simp)
  · intro h
    rcases List.append_of_mem h with ⟨u, v, rfl⟩
    refine strContains_iff.mpr ⟨u.length, ?_⟩
    unfold occursAt
    simp [List.drop_left, List.isPrefixOf]

theorem findSub_cons_of_not_prefix {sub : List Char} {c : Char} {t : List Char}
    (h : sub.isPrefixOf (c :: t) = false) :
    findSub sub (c :: t) = (findSub sub t).map (· + 1) := by
  unfold findSub
  rw [h]
  simp only [Bool.false_eq_true, if_false]
  cases t <;> rfl

theorem findSub_append_left (sub : List Char) {pre rest : List Char} (c : Char)
    (hsub : sub.head? = some c) (hc : c ∉ pre) :
    findSub sub (pre ++ rest) = (findSub sub rest).map (· + pre.length) := by
  induction pre with
  | nil =>
    simp only [List.nil_append, List.length_nil]
    cases h : findSub sub rest <;> simp
  | cons p t ih =>
    have hcp : c ≠ p := fun h => hc (h ▸ List.mem_cons_self p t)
    have hct : c ∉ t := fun h => hc (List.mem_cons_of_mem p h)
    rcases sub with _ | ⟨c', sub'⟩
    · simp at hsub
    · rw [List.head?_cons, Option.some.injEq] at hsub
      subst hsub
      have hnp : (c' :: sub').isPrefixOf (p :: (t ++ rest)) = false := by
        have hstep : (c' :: sub').isPrefixOf (p :: (t ++ rest))
            = (c' == p && sub'.isPrefixOf (t ++ rest)) := rfl
        rw [hstep]
        simp [hcp]
      rw [List.cons_append, findSub_cons_of_not_prefix hnp, ih hct]
      cases h : findSub (c' :: sub') rest with
      | none => simp
      | some j =>
        simp only [Option.map_some', Option.some.injEq, List.length_cons]
        omega

theorem findSub_self_append (sub rest : List Char) :
    findSub sub (sub ++ rest) = some 0 := by
  have hp : sub.isPrefixOf (sub ++ rest) = true :=
    List.isPrefixOf_iff_prefix.mpr (List.prefix_append sub rest)
  cases h : sub ++ rest with
  | nil =>
    have : sub = [] := by
      cases sub with
      | nil => rfl
      | cons a b => simp at h
    subst this
    unfold findSub
    simp
  | cons x xs =>
    unfold findSub
    rw [← h, hp]
    simp

theorem pyIdx_natCast {n a : Nat} (h : a ≤ n) : pyIdx n ((a : Nat) : Int) = a := by
  unfold pyIdx
  rw [if_neg (by omega), min_eq_left (by exact_mod_cast h)]
  simp

theorem pySlice_middle (u v w : List Char) :
    pySlice (u ++ v ++ w) ((u.length : Nat) : Int) (((u.length + v.length : Nat)) : Int) = v := by
  unfold pySlice
  have hlen : (u ++ v ++ w).length = u.length + v.length + w.length := by
    rw [List.length_append, List.length_append]
  rw [pyIdx_natCast (by omega), pyIdx_natCast (by omega)]
  have htake : ((u ++ v) ++ w).take (u.length + v.length) = u ++ v :=
    List.take_left' (by simp)
  rw [htake]
  exact List.drop_left u v

theorem pySlice_decomp (s : List Char) (a b : Int) :
    ∃ u v w, s = u ++ v ++ w ∧ pySlice s a b = v := by
  show ∃ u v w, s = u ++ v ++ w ∧ (s.take (pyIdx s.length b)).drop (pyIdx s.length a) = v
  generalize pyIdx s.length a = A
  generalize pyIdx s.length b = B
  rcases le_or_lt A B with hab | hab
  · refine ⟨s.take A, (s.take B).drop A, s.drop B, ?_, rfl⟩
    have h1 : s.take A ++ (s.take B).drop A = s.take B := by
      have ht : (s.take B).take A = s.take A := by
        rw [List.take_take, min_eq_left hab]
      calc s.take A ++ (s.take B).drop A
          = (s.take B).take A ++ (s.take B).drop A := by rw [ht]
        _ = s.take B := List.take_append_drop A (s.take B)
    rw [h1, List.take_append_drop]
  · refine ⟨[], [], s, by simp, ?_⟩
    apply List.drop_eq_nil_of_le
    have hlen : (s.take B).length ≤ B := by simp
    omega

theorem dropWhile_ws_append {ws rest : List Char}
    (hws : ∀ c ∈ ws, isPySpace c = true)
    (hr : ∀ c, rest.head? = some c → isPySpace c = false) :
    (ws ++ rest).dropWhile isPySpace = rest := by
  induction ws with
  | nil =>
    cases rest with
    | nil => rfl
    | cons c t =>
      have := hr c rfl
      simp [List.dropWhile_cons, this]
  | cons w ws' ih =>
    have hw : isPySpace w = true := hws w (by simp)
    have hws' : ∀ c ∈ ws', isPySpace c = true := fun c hc => hws c (by simp [hc])
    simp [List.dropWhile_cons, hw, ih hws']

theorem pyStrip_ws {ws1 obj ws2 : List Char}
    (h1 : ∀ c ∈ ws1, isPySpace c = true)
    (h2 : ∀ c ∈ ws2, isPySpace c = true)
    (hne : obj ≠ [])
    (hh : ∀ c, obj.head? = some c → isPySpace c = false)
    (hl : ∀ c, obj.getLast? = some c → isPySpace c = false) :
    pyStrip (ws1 ++ obj ++ ws2) = obj := by
  unfold pyStrip
  rw [List.append_assoc]
  have hd1 : (ws1 ++ (obj ++ ws2)).dropWhile isPySpace = obj ++ ws2 := by
    apply dropWhile_ws_append h1
    intro c hc
    apply hh
    rcases obj with _ | ⟨o, t⟩
    · exact absurd rfl hne
    · simpa using hc
  rw [hd1]
  have hrev : (obj ++ ws2).reverse = ws2.reverse ++ obj.reverse := by
    simp
  rw [hrev]
  have hd2 : (ws2.reverse ++ obj.reverse).dropWhile isPySpace = obj.reverse := by
    apply dropWhile_ws_append
    · intro c hc
      exact h2 c (by simpa using hc)
    · intro c hc
      apply hl
      rwa [← List.head?_reverse]
  rw [hd2, List.reverse_reverse]

theorem pyStrip_eq_self {l : List Char}
    (hh : ∀ c, l.head? = some c → isPySpace c = false)
    (hl : ∀ c, l.getLast? = some c → isPySpace c = false) :
    pyStrip l = l := by
  rcases l with _ | ⟨c, t⟩
  · rfl
  · have := @pyStrip_ws [] (c :: t) [] (by simp) (by simp) (by simp) hh hl
    simpa using this

/-! ### Lemmas about the brace-depth scan -/

theorem netDepth_cons (c : Char) (t : List Char) :
    netDepth (c :: t) = charDepth c + netDepth t := rfl

theorem braceScan_cons (x : Char) (l : List Char) (c : Int) (i : Nat) :
    braceScan (x :: l) c i =
      if x = '\x7b' then braceScan l (c + 1) (i + 1)
      else if x = '\x7d' then
        if c - 1 = 0 then some i else braceScan l (c - 1) (i + 1)
      else braceScan l c (i + 1) := rfl

theorem braceScan_run (l : List Char) :
    ∀ (rest : List Char) (c : Int) (i : Nat), l ≠ [] →
      (∀ k, k < l.length → 0 < c + netDepth (l.take k)) →
      c + netDepth l = 0 →
      braceScan (l ++ rest) c i = some (i + l.length - 1) := by
  induction l with
  | nil => intro _ _ _ hne _ _; exact absurd rfl hne
  | cons x t ih =>
    intro rest c i _ hpre htot
    have hc : 0 < c := by simpa [netDepth] using hpre 0 (by simp)
    rw [List.cons_append, braceScan_cons]
    by_cases h1 : x = '\x7b'
    · subst h1
      rw [if_pos rfl]
      have hne' : t ≠ [] := by
        intro ht
        subst ht
        simp [netDepth, charDepth] at htot
        omega
      have hstep : ∀ k, k < t.length → 0 < (c + 1) + netDepth (t.take k) := by
        intro k hk
        have h := hpre (k + 1) (by simpa using Nat.succ_lt_succ hk)
        rw [List.take_succ_cons, netDepth_cons] at h
        simp [charDepth] at h
        omega
      have htot' : (c + 1) + netDepth t = 0 := by
        rw [netDepth_cons] at htot
        simp [charDepth] at htot
        omega
      rw [ih rest (c + 1) (i + 1) hne' hstep htot']
      congr 1
      have : 1 ≤ t.length := List.length_pos.mpr hne'
      simp only [List.length_cons]
      omega
    · by_cases h2 : x = '\x7d'
      · subst h2
        rw [if_neg h1, if_pos rfl]
        rcases t with _ | ⟨y, t'⟩
        · have hc1 : c = 1 := by
            simp [netDepth, charDepth] at htot
            omega
          rw [if_pos (by omega)]
          simp
        · have hgt : 0 < c - 1 := by
            have h := hpre 1 (by simp)
            rw [List.take_succ_cons, List.take_zero, netDepth_cons] at h
            simp [charDepth, netDepth] at h
            omega
          rw [if_neg (by omega)]
          have hstep : ∀ k, k < (y :: t').length → 0 < (c - 1) + netDepth ((y :: t').take k) := by
            intro k hk
            have h := hpre (k + 1) (by simpa using Nat.succ_lt_succ hk)
            rw [List.take_succ_cons, netDepth_cons] at h
            simp [charDepth] at h
            omega
          have htot' : (c - 1) + netDepth (y :: t') = 0 := by
            rw [netDepth_cons '\x7d'] at htot
            simp [charDepth] at htot
            omega
          rw [ih rest (c - 1) (i + 1) (by simp) hstep htot']
          congr 1
          simp only [List.length_cons]
          omega
      · rw [if_neg h1, if_neg h2]
        have hne' : t ≠ [] := by
          intro ht
          subst ht
          rw [netDepth_cons] at htot
          simp [charDepth, h1, h2, netDepth] at htot
          omega
        have hstep : ∀ k, k < t.length → 0 < c + netDepth (t.take k) := by
          intro k hk
          have h := hpre (k + 1) (by simpa using Nat.succ_lt_succ hk)
          rw [List.take_succ_cons, netDepth_cons] at h
          simp [charDepth, h1, h2] at h
          omega
        have htot' : c + netDepth t = 0 := by
          rw [netDepth_cons] at htot
          simp [charDepth, h1, h2] at htot
          omega
        rw [ih rest c (i + 1) hne' hstep htot']
        congr 1
        have : 1 ≤ t.length := List.length_pos.mpr hne'
        simp only [List.length_cons]
        omega

theorem braceScan_balanced {body : List Char} (rest : List Char) (i : Nat)
    (hb : balancedSpan body) :
    braceScan (body ++ rest) 0 i = some (i + body.length - 1) := by
  obtain ⟨hh, hl, htot, hpre⟩ := hb
  rcases body with _ | ⟨x, t⟩
  · simp at hh
  · have hx : x = '\x7b' := by simpa using hh
    subst hx
    rw [List.cons_append, braceScan_cons, if_pos rfl]
    have hne' : t ≠ [] := by
      intro ht
      subst ht
      simp [netDepth, charDepth] at htot
    have hstep : ∀ k, k < t.length → 0 < ((0 : Int) + 1) + netDepth (t.take k) := by
      intro k hk
      have h := hpre (k + 1) (by simpa using Nat.succ_lt_succ hk) (by omega)
      rw [List.take_succ_cons, netDepth_cons] at h
      simp [charDepth] at h
      omega
    have htot' : ((0 : Int) + 1) + netDepth t = 0 := by
      rw [netDepth_cons] at htot
      simp [charDepth] at htot
      omega
    rw [braceScan_run t rest ((0 : Int) + 1) (i + 1) hne' hstep htot']
    congr 1
    have : 1 ≤ t.length := List.length_pos.mpr hne'
    simp only [List.length_cons]
    omega

theorem braceScan_none (l : List Char) :
    ∀ (c : Int) (i : Nat),
      (∀ k, k < l.length → l[k]? = some '\x7d' → c + netDepth (l.take (k + 1)) ≠ 0) →
      braceScan l c i = none := by
  induction l with
  | nil => intro c i _; rfl
  | cons x t ih =>
    intro c i h
    rw [braceScan_cons]
    by_cases h1 : x = '\x7b'
    · subst h1
      rw [if_pos rfl]
      apply ih
      intro k hk hbrace
      have hstep := h (k + 1) (by simpa using Nat.succ_lt_succ hk) (by simpa using hbrace)
      rw [List.take_succ_cons, netDepth_cons] at hstep
      simp [charDepth] at hstep
      omega
    · by_cases h2 : x = '\x7d'
      · subst h2
        rw [if_neg h1, if_pos rfl]
        have h0 := h 0 (by simp) (by simp)
        rw [List.take_succ_cons, List.take_zero, netDepth_cons] at h0
        simp [charDepth, netDepth] at h0
        rw [if_neg (by omega)]
        apply ih
        intro k hk hbrace
        have hstep := h (k + 1) (by simpa using Nat.succ_lt_succ hk) (by simpa using hbrace)
        rw [List.take_succ_cons, netDepth_cons] at hstep
        simp [charDepth, h1] at hstep
        omega
      · rw [if_neg h1, if_neg h2]
        apply ih
        intro k hk hbrace
        have hstep := h (k + 1) (by simpa using Nat.succ_lt_succ hk) (by simpa using hbrace)
        rw [List.take_succ_cons, netDepth_cons] at hstep
        simp [charDepth, h1, h2] at hstep
        omega

/-! ### The four extraction branches of `clean_json_response` -/

theorem pyStart_natCast (n a : Nat) : pyStart n ((a : Nat) : Int) = a := by
  unfold pyStart
  rw [if_neg (by omega)]
  simp

theorem clean_branchA (pre body post : List Char)
    (hpre : '`' ∉ pre) (hbody : '`' ∉ body) :
    clean_json_response (pre ++ "```json".data ++ body ++ "```".data ++ post)
      = pyStrip body := by
  set s := pre ++ "```json".data ++ body ++ "```".data ++ post with hs
  have hshape : s = pre ++ ("```json".data ++ (body ++ ("```".data ++ post))) := by
    rw [hs]
    simp [List.append_assoc]
  have hshape2 : s = (pre ++ "```json".data) ++ body ++ ("```".data ++ post) := by
    rw [hs]
    simp [List.append_assoc]
  have hjtlen : ("```json".data).length = 7 := rfl
  have hfence : "```json".data = "```".data ++ "json".data := rfl
  have hfind : findSub "```json".data s = some pre.length := by
    rw [hshape, findSub_append_left "```json".data '`' (by decide) hpre,
      findSub_self_append]
    simp
  have hcontains1 : strContains s "```json".data = true := by
    unfold strContains
    rw [hfind]
    rfl
  have hcontains2 : strContains s "```".data = true := by
    apply strContains_iff.mpr ⟨pre.length, ?_⟩
    unfold occursAt
    rw [hshape, List.drop_left, hfence, List.append_assoc]
    exact List.isPrefixOf_iff_prefix.mpr (List.prefix_append _ _)
  have hcond : (strContains s "```json".data && strContains s "```".data) = true := by
    rw [hcontains1, hcontains2]
    rfl
  have hpf : pyFind s "```json".data = (pre.length : Int) := by
    unfold pyFind
    rw [hfind]
  have hslen : s.length = pre.length + 7 + body.length + 3 + post.length := by
    rw [hshape]
    simp [hjtlen]
    omega
  have hstart : (pre.length : Int) + 7 = ((pre.length + 7 : Nat) : Int) := by
    push_cast
    ring
  have hst : pyStart s.length ((pre.length : Int) + 7) = pre.length + 7 := by
    rw [hstart, pyStart_natCast]
  have hdrop : s.drop (pre.length + 7) = body ++ ("```".data ++ post) := by
    rw [hshape2, List.append_assoc, List.drop_left' (by simp [hjtlen])]
  have hfrom : pyFindFrom s "```".data ((pre.length : Int) + 7)
      = ((pre.length + 7 + body.length : Nat) : Int) := by
    unfold pyFindFrom
    rw [hst, hdrop, if_neg (by omega)]
    rw [findSub_append_left "```".data '`' (by decide) hbody,
      findSub_self_append]
    simp
  unfold clean_json_response
  rw [if_pos hcond, hpf, hfrom]
  have hmid := pySlice_middle (pre ++ "```json".data) body ("```".data ++ post)
  rw [← hshape2] at hmid
  simp only [List.length_append, hjtlen] at hmid
  rw [hstart]
  exact congrArg pyStrip hmid

theorem isPrefixOf_cons_eq (a : Char) (as : List Char) (b : Char) (bs : List Char) :
    (a :: as).isPrefixOf (b :: bs) = ((a == b) && as.isPrefixOf bs) := rfl

theorem findSub_cons_of_prefix (sub : List Char) (c : Char) (t : List Char)
    (h : sub.isPrefixOf (c :: t) = true) :
    findSub sub (c :: t) = some 0 := by
  unfold findSub
  rw [if_pos h]

theorem mem_of_getLast_eq {l : List Char} {a : Char} (h : l.getLast? = some a) : a ∈ l := by
  rw [← List.head?_reverse] at h
  have hmem : a ∈ l.reverse := by
    rcases hr : l.reverse with _ | ⟨x, t⟩
    · rw [hr] at h
      simp at h
    · rw [hr] at h
      simp only [List.head?_cons, Option.some.injEq] at h
      simp [h]
  simpa using hmem

theorem findSub_close_tick (mid post : List Char) (h : '`' ∉ mid) :
    findSub "\x7d`".data (mid ++ ("\x7d`".data ++ post)) = some mid.length := by
  induction mid with
  | nil =>
    simpa using findSub_self_append "\x7d`".data post
  | cons c m ih =>
    have hm : '`' ∉ m := fun hx => h (List.mem_cons_of_mem c hx)
    have hnp : ("\x7d`".data).isPrefixOf (c :: (m ++ ("\x7d`".data ++ post))) = false := by
      have e1 : "\x7d`".data = '\x7d' :: "`".data := rfl
      rw [e1, isPrefixOf_cons_eq]
      by_cases hcb : ('\x7d' : Char) = c
      · subst hcb
        rcases m with _ | ⟨d, m'⟩
        · simp
          rfl
        · have hd : d ≠ '`' := by
            intro hd
            exact h (by simp [hd])
          have e2 : "`".data = '`' :: ([] : List Char) := rfl
          simp only [List.nil_append, List.cons_append, e2, isPrefixOf_cons_eq]
          simp [Ne.symm hd]
      · simp [hcb]
    rw [List.cons_append, findSub_cons_of_not_prefix hnp, ih hm]
    simp

theorem clean_branchB (pre mid post : List Char)
    (hnj : strContains (pre ++ "`\x7b".data ++ mid ++ "\x7d`".data ++ post)
      "```json".data = false)
    (hpre : '`' ∉ pre) (hmid : '`' ∉ mid) :
    clean_json_response (pre ++ "`\x7b".data ++ mid ++ "\x7d`".data ++ post)
      = '\x7b' :: (mid ++ "\x7d".data) := by
  set s := pre ++ "`\x7b".data ++ mid ++ "\x7d`".data ++ post with hs
  have hshape : s = pre ++ ("`\x7b".data ++ (mid ++ ("\x7d`".data ++ post))) := by
    rw [hs]
    simp [List.append_assoc]
  have hshape3 : s = (pre ++ "`\x7b".data ++ mid) ++ ("\x7d`".data ++ post) := by
    rw [hs]
    simp [List.append_assoc]
  have hfind : findSub "`\x7b".data s = some pre.length := by
    rw [hshape, findSub_append_left "`\x7b".data '`' (by decide) hpre,
      findSub_self_append]
    simp
  have hcontains1 : strContains s "`\x7b".data = true := by
    unfold strContains
    rw [hfind]
    rfl
  have hcontains2 : strContains s "\x7d`".data = true := by
    apply strContains_iff.mpr ⟨(pre ++ "`\x7b".data ++ mid).length, ?_⟩
    unfold occursAt
    rw [hshape3, List.drop_left]
    exact List.isPrefixOf_iff_prefix.mpr (List.prefix_append _ _)
  have hpf : pyFind s "`\x7b".data = (pre.length : Int) := by
    unfold pyFind
    rw [hfind]
  have hslen : s.length = pre.length + mid.length + 4 + post.length := by
    rw [hshape]
    simp
    omega
  have hstart : (pre.length : Int) + 1 = ((pre.length + 1 : Nat) : Int) := by
    push_cast
    ring
  have hst : pyStart s.length ((pre.length : Int) + 1) = pre.length + 1 := by
    rw [hstart, pyStart_natCast]
  have hdrop : s.drop (pre.length + 1) = '\x7b' :: (mid ++ ("\x7d`".data ++ post)) := by
    have hshape4 : s = (pre ++ "`".data) ++ ('\x7b' :: (mid ++ ("\x7d`".data ++ post))) := by
      rw [hs]
      simp [List.append_assoc]
    rw [hshape4, List.drop_left' (by simp)]
  have hnp0 : ("\x7d`".data).isPrefixOf ('\x7b' :: (mid ++ ("\x7d`".data ++ post))) = false := rfl
  have hfrom : pyFindFrom s "\x7d`".data ((pre.length : Int) + 1)
      = ((pre.length + 1 + (mid.length + 1) : Nat) : Int) := by
    unfold pyFindFrom
    rw [hst, hdrop, if_neg (by omega), findSub_cons_of_not_prefix hnp0,
      findSub_close_tick mid post hmid]
    simp
  have hcond1 : (strContains s "```json".data && strContains s "```".data) = false := by
    rw [hnj]
    rfl
  have hcond2 : (strContains s "`\x7b".data && strContains s "\x7d`".data) = true := by
    rw [hcontains1, hcontains2]
    rfl
  unfold clean_json_response
  rw [if_neg (by rw [hcond1]; simp), if_pos hcond2, hpf, hfrom]
  have hmid2 := pySlice_middle (pre ++ "`".data) ('\x7b' :: (mid ++ "\x7d".data))
    ("`".data ++ post)
  have hshape5 : (pre ++ "`".data) ++ ('\x7b' :: (mid ++ "\x7d".data)) ++ ("`".data ++ post)
      = s := by
    rw [hs]
    simp [List.append_assoc]
  rw [hshape5] at hmid2
  have hargs1 : ((((pre ++ "`".data).length : Nat)) : Int) = (pre.length : Int) + 1 := by
    simp
  have hargs2 : ((((pre ++ "`".data).length
      + ('\x7b' :: (mid ++ "\x7d".data)).length : Nat)) : Int)
      = ((pre.length + 1 + (mid.length + 1) : Nat) : Int) + 1 := by
    simp
    ring
  rw [hargs1, hargs2] at hmid2
  rw [hmid2]
  apply pyStrip_eq_self
  · intro c hc
    simp only [List.head?_cons, Option.some.injEq] at hc
    subst hc
    rfl
  · intro c hc
    have hconc : ('\x7b' :: (mid ++ "\x7d".data)) = (('\x7b' :: mid) ++ ['\x7d']) := by
      simp
    rw [hconc, List.getLast?_concat] at hc
    simp only [Option.some.injEq] at hc
    subst hc
    rfl

theorem clean_branchC (pre body post : List Char)
    (h1 : strContains (pre ++ body ++ post) "```json".data = false)
    (h2 : (strContains (pre ++ body ++ post) "`\x7b".data
        && strContains (pre ++ body ++ post) "\x7d`".data) = false)
    (hpre : '\x7b' ∉ pre) (hb : balancedSpan body) :
    clean_json_response (pre ++ body ++ post) = body := by
  obtain ⟨hh, hl, htot, hdepth⟩ := hb
  rcases hbody : body with _ | ⟨x, t⟩
  · rw [hbody] at hh
    simp at hh
  · rw [hbody] at hh
    simp only [List.head?_cons, Option.some.injEq] at hh
    subst hh
    rw [← hbody]
    set s := pre ++ body ++ post with hs
    have hmemo : '\x7b' ∈ body := by
      rw [hbody]
      simp
    have hmemc : '\x7d' ∈ body := mem_of_getLast_eq hl
    have hcontains1 : strContains s "\x7b".data = true := by
      have : "\x7b".data = ['\x7b'] := rfl
      rw [this, strContains_single]
      rw [hs]
      simp [hmemo]
    have hcontains2 : strContains s "\x7d".data = true := by
      have : "\x7d".data = ['\x7d'] := rfl
      rw [this, strContains_single]
      rw [hs]
      simp [hmemc]
    have hshape : s = pre ++ (body ++ post) := by
      rw [hs, List.append_assoc]
    have hocc : findSub "\x7b".data (body ++ post) = some 0 := by
      rw [hbody, List.cons_append]
      apply findSub_cons_of_prefix "\x7b".data '\x7b' (t ++ post)
      have e : "\x7b".data = ['\x7b'] := rfl
      rw [e, isPrefixOf_cons_eq]
      simp [List.isPrefixOf]
    have hfind : findSub "\x7b".data s = some pre.length := by
      rw [hshape, findSub_append_left "\x7b".data '\x7b' (by decide) hpre, hocc]
      simp
    have hpf : pyFind s "\x7b".data = (pre.length : Int) := by
      unfold pyFind
      rw [hfind]
    have hdrop : s.drop pre.length = body ++ post := by
      rw [hs, List.append_assoc, List.drop_left]
    have hscan : braceScan (body ++ post) 0 pre.length
        = some (pre.length + body.length - 1) :=
      braceScan_balanced post pre.length ⟨by rw [hbody]; rfl, hl, htot, hdepth⟩
    unfold clean_json_response
    rw [if_neg (by rw [h1]; simp), if_neg (by rw [h2]; simp),
      if_pos (by rw [hcontains1, hcontains2]; rfl), hpf]
    have htn : ((pre.length : Int)).toNat = pre.length := by simp
    rw [htn, hdrop, hscan]
    show pyStrip (pySlice s (pre.length : Int)
      (((pre.length + body.length - 1 : Nat) : Int) + 1)) = body
    have hlen1 : 1 ≤ body.length := by
      rw [hbody]
      simp
    have hcast : ((pre.length + body.length - 1 : Nat) : Int) + 1
        = (((pre.length + body.length : Nat)) : Int) := by
      omega
    rw [hcast]
    have hmid := pySlice_middle pre body post
    rw [← hs] at hmid
    rw [hmid]
    apply pyStrip_eq_self
    · intro c hc
      rw [hbody] at hc
      simp only [List.head?_cons, Option.some.injEq] at hc
      subst hc
      rfl
    · intro c hc
      rw [hl] at hc
      simp only [Option.some.injEq] at hc
      subst hc
      rfl

theorem clean_branchD (s : List Char)
    (h1 : strContains s "```json".data = false)
    (h2 : (strContains s "`\x7b".data && strContains s "\x7d`".data) = false)
    (h3 : (strContains s "\x7b".data && strContains s "\x7d".data) = false) :
    clean_json_response s = s := by
  unfold clean_json_response
  rw [if_neg (by rw [h1]; simp), if_neg (by rw [h2]; simp), if_neg (by rw [h3]; simp)]

theorem clean_id_fallthrough (s : List Char)
    (h1 : strContains s "```json".data = false)
    (h2 : (strContains s "`\x7b".data && strContains s "\x7d`".data) = false)
    (h3 : ∀ i, findSub "\x7b".data s = some i → scanNeverCloses (s.drop i)) :
    clean_json_response s = s := by
  unfold clean_json_response
  rw [if_neg (by rw [h1]; simp), if_neg (by rw [h2]; simp)]
  by_cases hc : (strContains s "\x7b".data && strContains s "\x7d".data) = true
  · rw [if_pos hc]
    have hex : ∃ i, findSub "\x7b".data s = some i := by
      have hc2 := hc
      rw [Bool.and_eq_true] at hc2
      have hsome := hc2.1
      unfold strContains at hsome
      exact Option.isSome_iff_exists.mp hsome
    rcases hex with ⟨i, hi⟩
    have hpf : pyFind s "\x7b".data = (i : Int) := by
      unfold pyFind
      rw [hi]
    rw [hpf]
    have htn : ((i : Nat) : Int).toNat = i := by simp
    rw [htn]
    have hnone : braceScan (s.drop i) 0 i = none := by
      apply braceScan_none
      intro k hk hbrace
      have := h3 i hi k hk hbrace
      omega
    rw [hnone]
  · rw [if_neg hc]

/-! ### Claims about the response normalizer -/

theorem strContains_false_of_tick_free {s : List Char} (h : '`' ∉ s) :
    strContains s "```json".data = false := by
  cases hq : strContains s "```json".data
  · rfl
  · exact absurd (strContains_subset hq '`' (by decide)) h

theorem strContains_tickbrace_false_of_tick_free {s : List Char} (h : '`' ∉ s) :
    (strContains s "`\x7b".data && strContains s "\x7d`".data) = false := by
  cases hq : strContains s "`\x7b".data
  · rfl
  · exact absurd (strContains_subset hq '`' (by decide)) h

/-- Claim C1: `clean_json_response` applies its strategies in order:
(a) a JSON-tagged fenced block yields its (stripped) interior; (b) else
single-backtick-wrapped braces yield the wrapped object; (c) else the span
from the first `\x7b` to the `\x7d` that returns the depth counter to zero
is returned; (d) else the input is returned unchanged. -/
theorem clean_json_strategy_order :
    (∀ pre body post : List Char, '`' ∉ pre → '`' ∉ body →
      clean_json_response (pre ++ "```json".data ++ body ++ "```".data ++ post)
        = pyStrip body)
    ∧ (∀ pre mid post : List Char,
        strContains (pre ++ "`\x7b".data ++ mid ++ "\x7d`".data ++ post)
          "```json".data = false →
        '`' ∉ pre → '`' ∉ mid →
        clean_json_response (pre ++ "`\x7b".data ++ mid ++ "\x7d`".data ++ post)
          = '\x7b' :: (mid ++ "\x7d".data))
    ∧ (∀ pre body post : List Char,
        strContains (pre ++ body ++ post) "```json".data = false →
        (strContains (pre ++ body ++ post) "`\x7b".data
          && strContains (pre ++ body ++ post) "\x7d`".data) = false →
        '\x7b' ∉ pre → balancedSpan body →
        clean_json_response (pre ++ body ++ post) = body)
    ∧ (∀ s : List Char,
        strContains s "```json".data = false →
        (strContains s "`\x7b".data && strContains s "\x7d`".data) = false →
        '\x7b' ∉ s →
        clean_json_response s = s) := by
  refine ⟨clean_branchA, clean_branchB, clean_branchC, ?_⟩
  intro s h1 h2 h3
  have hfb : strContains s "\x7b".data = false := by
    cases hq : strContains s "\x7b".data
    · rfl
    · have : '\x7b' ∈ s := strContains_subset hq '\x7b' (by decide)
      exact absurd this h3
  exact clean_branchD s h1 h2 (by rw [hfb]; simp)

/-- Witness for C1 at concrete inputs, one per strategy. -/
theorem clean_json_strategy_order_witness :
    clean_json_response "A ```json \x7b\"k\": 1\x7d ``` B".data = "\x7b\"k\": 1\x7d".data
    ∧ clean_json_response "see `\x7b\"k\": 2\x7d` end".data = "\x7b\"k\": 2\x7d".data
    ∧ clean_json_response "txt \x7b\"k\": \x7b\x7d\x7d tail".data
        = "\x7b\"k\": \x7b\x7d\x7d".data
    ∧ clean_json_response "plain words".data = "plain words".data := by
  refine ⟨?_, ?_, ?_, ?_⟩
  · have h := clean_json_strategy_order.1 "A ".data " \x7b\"k\": 1\x7d ".data " B".data
      (by decide) (by decide)
    have e1 : "A ".data ++ "```json".data ++ " \x7b\"k\": 1\x7d ".data ++ "```".data
        ++ " B".data = "A ```json \x7b\"k\": 1\x7d ``` B".data := by decide
    have e2 : pyStrip " \x7b\"k\": 1\x7d ".data = "\x7b\"k\": 1\x7d".data := by decide
    rw [e1, e2] at h
    exact h
  · have h := clean_json_strategy_order.2.1 "see ".data "\"k\": 2".data " end".data
      (by decide) (by decide) (by decide)
    have e1 : "see ".data ++ "`\x7b".data ++ "\"k\": 2".data ++ "\x7d`".data
        ++ " end".data = "see `\x7b\"k\": 2\x7d` end".data := by decide
    have e2 : '\x7b' :: ("\"k\": 2".data ++ "\x7d".data) = "\x7b\"k\": 2\x7d".data := by
      decide
    rw [e1, e2] at h
    exact h
  · have h := clean_json_strategy_order.2.2.1 "txt ".data "\x7b\"k\": \x7b\x7d\x7d".data
      " tail".data (by decide) (by decide) (by decide) (by decide)
    have e1 : "txt ".data ++ "\x7b\"k\": \x7b\x7d\x7d".data ++ " tail".data
        = "txt \x7b\"k\": \x7b\x7d\x7d tail".data := by decide
    rw [e1] at h
    exact h
  · exact clean_json_strategy_order.2.2.2 "plain words".data (by decide) (by decide)
      (by decide)

/-- Claim C2: a well-formed JSON object reply wrapped in a markdown fence
opened by a JSON-tagged fence and closed by a plain fence is normalized to
exactly the JSON object between the fences (the interior, with the fence
line whitespace around it removed). -/
theorem clean_json_fenced_extracts_interior
    (pre ws1 obj ws2 post : List Char)
    (hpre : '`' ∉ pre)
    (hws1 : ∀ c ∈ ws1, isPySpace c = true)
    (hws2 : ∀ c ∈ ws2, isPySpace c = true)
    (hobj : '`' ∉ obj)
    (hhead : obj.head? = some '\x7b')
    (hlast : obj.getLast? = some '\x7d') :
    clean_json_response
      (pre ++ "```json".data ++ (ws1 ++ obj ++ ws2) ++ "```".data ++ post) = obj := by
  have hbody : '`' ∉ ws1 ++ obj ++ ws2 := by
    intro hmem
    rcases List.mem_append.mp hmem with hmem1 | hmem2
    · rcases List.mem_append.mp hmem1 with hws | hob
      · have := hws1 '`' hws
        simp [isPySpace] at this
      · exact hobj hob
    · have := hws2 '`' hmem2
      simp [isPySpace] at this
  have h := clean_branchA pre (ws1 ++ obj ++ ws2) post hpre hbody
  rw [h]
  have hne : obj ≠ [] := by
    intro h0
    rw [h0] at hhead
    simp at hhead
  apply pyStrip_ws hws1 hws2 hne
  · intro c hc
    rw [hhead] at hc
    simp only [Option.some.injEq] at hc
    subst hc
    rfl
  · intro c hc
    rw [hlast] at hc
    simp only [Option.some.injEq] at hc
    subst hc
    rfl

/-- Witness for C2 on a typical fenced reply with newlines around the object. -/
theorem clean_json_fenced_extracts_interior_witness :
    clean_json_response "Sure! ```json\n\x7b\"a\": 1\x7d\n``` thanks".data
      = "\x7b\"a\": 1\x7d".data := by
  have h := clean_json_fenced_extracts_interior "Sure! ".data "\n".data
    "\x7b\"a\": 1\x7d".data "\n".data " thanks".data
    (by decide) (by decide) (by decide) (by decide) (by decide) (by decide)
  have e1 : "Sure! ".data ++ "```json".data
      ++ ("\n".data ++ "\x7b\"a\": 1\x7d".data ++ "\n".data) ++ "```".data
      ++ " thanks".data = "Sure! ```json\n\x7b\"a\": 1\x7d\n``` thanks".data := by decide
  rw [e1] at h
  exact h

/-- Claim C3: a reply containing exactly one balanced top-level brace span
amid brace-free, backtick-free prose is normalized to exactly that span,
content unchanged. -/
theorem clean_json_balanced_span
    (pre body post : List Char)
    (hpre_t : '`' ∉ pre) (hbody_t : '`' ∉ body) (hpost_t : '`' ∉ post)
    (hpre_o : '\x7b' ∉ pre) (_hpre_c : '\x7d' ∉ pre)
    (_hpost_o : '\x7b' ∉ post) (_hpost_c : '\x7d' ∉ post)
    (hb : balancedSpan body) :
    clean_json_response (pre ++ body ++ post) = body := by
  have hticks : '`' ∉ pre ++ body ++ post := by
    intro hmem
    rcases List.mem_append.mp hmem with hmem1 | hmem2
    · rcases List.mem_append.mp hmem1 with hx | hx
      · exact hpre_t hx
      · exact hbody_t hx
    · exact hpost_t hmem2
  exact clean_branchC pre body post (strContains_false_of_tick_free hticks)
    (strContains_tickbrace_false_of_tick_free hticks) hpre_o hb

/-- Witness for C3 on a nested object amid prose. -/
theorem clean_json_balanced_span_witness :
    clean_json_response "Result: \x7b\"x\": \x7b\"y\": 2\x7d\x7d done.".data
      = "\x7b\"x\": \x7b\"y\": 2\x7d\x7d".data := by
  have h := clean_json_balanced_span "Result: ".data "\x7b\"x\": \x7b\"y\": 2\x7d\x7d".data
    " done.".data (by decide) (by decide) (by decide) (by decide) (by decide) (by decide)
    (by decide) (by decide)
  have e1 : "Result: ".data ++ "\x7b\"x\": \x7b\"y\": 2\x7d\x7d".data ++ " done.".data
      = "Result: \x7b\"x\": \x7b\"y\": 2\x7d\x7d done.".data := by decide
  rw [e1] at h
  exact h

/-- Counterexample to claim C10 as stated: this input contains no braces at
all, yet `clean_json_response` does not return it unchanged (the JSON-tagged
fence branch fires first and extracts the fenced interior). -/
theorem clean_json_no_brace_changed :
    '\x7b' ∉ "```json hi```".data
    ∧ clean_json_response "```json hi```".data ≠ "```json hi```".data := by decide

/-- Claim C10 (amended): `clean_json_response` is total and always returns
either the input unchanged or a whitespace-stripped contiguous substring of
it; an input with no braces, or whose braces never return the depth counter
to zero, is returned unchanged provided no JSON-tagged fence and no
backtick-wrapped braces are present (those earlier strategies may otherwise
rewrite such inputs). -/
theorem clean_json_total_substring :
    (∀ s : List Char, clean_json_response s = s
      ∨ ∃ u v w, s = u ++ v ++ w ∧ clean_json_response s = pyStrip v)
    ∧ (∀ s : List Char, strContains s "```json".data = false →
        (strContains s "`\x7b".data && strContains s "\x7d`".data) = false →
        '\x7b' ∉ s → clean_json_response s = s)
    ∧ (∀ s : List Char, strContains s "```json".data = false →
        (strContains s "`\x7b".data && strContains s "\x7d`".data) = false →
        (∀ i, findSub "\x7b".data s = some i → scanNeverCloses (s.drop i)) →
        clean_json_response s = s) := by
  refine ⟨?_, ?_, ?_⟩
  · intro s
    unfold clean_json_response
    by_cases hA : (strContains s "```json".data && strContains s "```".data) = true
    · rw [if_pos hA]
      right
      rcases pySlice_decomp s (pyFind s "```json".data + 7)
          (pyFindFrom s "```".data (pyFind s "```json".data + 7)) with ⟨u, v, w, h1, h2⟩
      exact ⟨u, v, w, h1, by rw [h2]⟩
    · rw [if_neg hA]
      by_cases hB : (strContains s "`\x7b".data && strContains s "\x7d`".data) = true
      · rw [if_pos hB]
        right
        rcases pySlice_decomp s (pyFind s "`\x7b".data + 1)
            (pyFindFrom s "\x7d`".data (pyFind s "`\x7b".data + 1) + 1) with ⟨u, v, w, h1, h2⟩
        exact ⟨u, v, w, h1, by rw [h2]⟩
      · rw [if_neg hB]
        by_cases hC : (strContains s "\x7b".data && strContains s "\x7d".data) = true
        · rw [if_pos hC]
          cases hscan : braceScan (s.drop (pyFind s "\x7b".data).toNat) 0
              (pyFind s "\x7b".data).toNat with
          | some i =>
            right
            rcases pySlice_decomp s (pyFind s "\x7b".data) ((i : Int) + 1)
              with ⟨u, v, w, h1, h2⟩
            refine ⟨u, v, w, h1, ?_⟩
            show pyStrip (pySlice s (pyFind s "\x7b".data) ((i : Int) + 1)) = pyStrip v
            rw [h2]
          | none => left; rfl
        · rw [if_neg hC]
          left
          rfl
  · intro s h1 h2 h3
    have hfb : strContains s "\x7b".data = false := by
      cases hq : strContains s "\x7b".data
      · rfl
      · exact absurd (strContains_subset hq '\x7b' (by decide)) h3
    exact clean_branchD s h1 h2 (by rw [hfb]; simp)
  · intro s h1 h2 h3
    exact clean_id_fallthrough s h1 h2 h3

/-- Witness for C10 (amended) on a no-brace input and a never-closing input. -/
theorem clean_json_total_substring_witness :
    clean_json_response "all prose".data = "all prose".data
    ∧ clean_json_response "abc \x7b never closes".data = "abc \x7b never closes".data := by
  constructor
  · exact clean_json_total_substring.2.1 "all prose".data (by decide) (by decide) (by decide)
  · apply clean_json_total_substring.2.2 "abc \x7b never closes".data (by decide) (by decide)
    intro i hi
    have he : findSub "\x7b".data "abc \x7b never closes".data = some 4 := by decide
    rw [he] at hi
    injection hi with h
    subst h
    decide

/-! ### Claims about the API client and the prompt-generation stage -/

/-- Counterexample to claim C7 as stated: on parse failure the client does
not return the raw text; it returns the normalized text (the source
reassigns `content` to the cleaned string before parsing and returns that
variable in the handler). -/
theorem api_client_returns_cleaned_not_raw :
    call_deepseek_api parseStub (some "x ```json notjson``` y".data) true
      = ApiOutcome.raw "notjson".data
    ∧ call_deepseek_api parseStub (some "x ```json notjson``` y".data) true
      ≠ ApiOutcome.raw "x ```json notjson``` y".data := by
  constructor
  · decide
  · decide

/-- Claim C7 (amended): with `expect_json`, a call returns the parsed value
when the normalized content parses, and otherwise the normalized (cleaned)
text rather than failing; without `expect_json` it returns the content
verbatim; transport or HTTP failure terminates the process (no retry). -/
theorem api_client_outcomes {J : Type} (parse : List Char → Option J)
    (transport : Option (List Char)) (ej : Bool) :
    (transport = none → call_deepseek_api parse transport ej = ApiOutcome.exitFailure)
    ∧ (∀ content, transport = some content → ej = true →
        ((∃ v, parse (clean_json_response content) = some v
            ∧ call_deepseek_api parse transport ej = ApiOutcome.parsed v)
          ∨ (parse (clean_json_response content) = none
            ∧ call_deepseek_api parse transport ej
                = ApiOutcome.raw (clean_json_response content))))
    ∧ (∀ content, transport = some content → ej = false →
        call_deepseek_api parse transport ej = ApiOutcome.raw content) := by
  refine ⟨?_, ?_, ?_⟩
  · intro h
    subst h
    rfl
  · intro content h hej
    subst h
    subst hej
    cases hp : parse (clean_json_response content) with
    | some v =>
      left
      exact ⟨v, rfl, by simp [call_deepseek_api, hp]⟩
    | none =>
      right
      exact ⟨rfl, by simp [call_deepseek_api, hp]⟩
  · intro content h hej
    subst h
    subst hej
    rfl

/-- Witness for C7 (amended): transport failure exits; a non-JSON call
returns the content verbatim. -/
theorem api_client_outcomes_witness :
    call_deepseek_api parseStub none true = ApiOutcome.exitFailure
    ∧ call_deepseek_api parseStub (some "hello".data) false
        = ApiOutcome.raw "hello".data :=
  ⟨(api_client_outcomes parseStub none true).1 rfl,
   (api_client_outcomes parseStub (some "hello".data) false).2.2 "hello".data rfl rfl⟩

/-- Claim C9: with a single topic, the prompt-generation stage performs
exactly one API call, and when that call returns a `problem_types` object
holding exactly one entry, the aggregate prompts list (written verbatim to
the prompts file) is exactly that entry. -/
theorem prompts_stage_single_topic (api : List Char → JVal) (topic : List Char)
    (obj : JVal)
    (h : api topic = JVal.obj [("problem_types".data, JVal.arr [obj])]) :
    (generate_topic_breakdowns [topic] api).1.length = 1
    ∧ (generate_topic_breakdowns [topic] api).2 = [obj] := by
  have hres : processTopicResponse (JVal.obj [("problem_types".data, JVal.arr [obj])])
      = some [obj] := rfl
  unfold generate_topic_breakdowns
  simp only [List.foldl_cons, List.foldl_nil, h, hres]
  exact ⟨rfl, rfl⟩

/-- Witness for C9 at the spec's example scenario. -/
theorem prompts_stage_single_topic_witness :
    (generate_topic_breakdowns ["Fractions".data]
      (fun _ => JVal.obj [("problem_types".data, JVal.arr
        [JVal.obj [("id".data, JVal.str "fractions_1".data),
                   ("title".data, JVal.str "Adding Fractions".data)]])])).1.length = 1
    ∧ (generate_topic_breakdowns ["Fractions".data]
      (fun _ => JVal.obj [("problem_types".data, JVal.arr
        [JVal.obj [("id".data, JVal.str "fractions_1".data),
                   ("title".data, JVal.str "Adding Fractions".data)]])])).2
        = [JVal.obj [("id".data, JVal.str "fractions_1".data),
                     ("title".data, JVal.str "Adding Fractions".data)]] :=
  prompts_stage_single_topic _ "Fractions".data _ rfl

/-! ### Claims about per-item error isolation (both stages) -/

theorem gtb_snd_indep (api : List Char → JVal) :
    ∀ (topics : List (List Char)) (a1 a1' : List (List Char)) (a2 : List JVal),
      (topics.foldl
        (fun acc t =>
          (acc.1 ++ [t],
            match processTopicResponse (api t) with
            | some l => acc.2 ++ l
            | none => acc.2)) (a1, a2)).2
      = (topics.foldl
        (fun acc t =>
          (acc.1 ++ [t],
            match processTopicResponse (api t) with
            | some l => acc.2 ++ l
            | none => acc.2)) (a1', a2)).2 := by
  intro topics
  induction topics with
  | nil => intro a1 a1' a2; rfl
  | cons t ts ih =>
    intro a1 a1' a2
    simp only [List.foldl_cons]
    exact ih _ _ _

/-- Counterexample to claim C8 as stated: the prompt-generation stage does
not filter entries for required fields — an entry with no fields at all
(in particular no `prompt`, `id`, `title`, `topic` or `tags`) is kept and
written to the aggregate prompts list. -/
theorem prompts_stage_keeps_fieldless_entry :
    (generate_topic_breakdowns ["T".data]
      (fun _ => JVal.obj [("problem_types".data, JVal.arr [JVal.obj []])])).2
      = [JVal.obj []]
    ∧ lookupField ([] : List (List Char × JVal)) "prompt".data = none := by
  exact ⟨rfl, rfl⟩

/-- Claim C8 (amended): in both stages one malformed or wrongly-shaped
response only skips that input item and never aborts the run; each stage
checks that the response is a dict whose expected key holds a list; the
problems stage additionally filters out entries missing a required field,
while the prompts/topics stage appends the list's entries without any
per-entry field validation. -/
theorem stage_error_isolation :
    (∀ (db : DB) (pre post : List (JVal × List Char × List (List Char)))
        (bad : JVal × List Char × List (List Char)),
      problemsOf bad.1 = none →
      problemsStage db (pre ++ bad :: post) = problemsStage db (pre ++ post))
    ∧ (∀ (api : List Char → JVal) (topics1 topics2 : List (List Char))
        (tbad : List Char),
      processTopicResponse (api tbad) = none →
      (generate_topic_breakdowns (topics1 ++ tbad :: topics2) api).2
        = (generate_topic_breakdowns (topics1 ++ topics2) api).2)
    ∧ (∀ fields : List (List Char × JVal),
        lookupField fields "answer".data = none →
        entryToClean (JVal.obj fields) = none)
    ∧ (∀ l : List JVal,
        processTopicResponse (JVal.obj [("problem_types".data, JVal.arr l)]) = some l) := by
  refine ⟨?_, ?_, ?_, ?_⟩
  · intro db pre post bad hbad
    unfold problemsStage
    rw [List.foldl_append, List.foldl_append, List.foldl_cons]
    have hskip : processProblemsResponse (pre.foldl
        (fun db it => processProblemsResponse db it.1 it.2.1 it.2.2) db)
        bad.1 bad.2.1 bad.2.2
        = pre.foldl (fun db it => processProblemsResponse db it.1 it.2.1 it.2.2) db := by
      unfold processProblemsResponse
      rw [hbad]
    rw [hskip]
  · intro api topics1 topics2 tbad hbad
    unfold generate_topic_breakdowns
    rw [List.foldl_append, List.foldl_append, List.foldl_cons]
    simp only [hbad]
    exact gtb_snd_indep api topics2 _ _ _
  · intro fields h
    show (match lookupField fields "problem".data, lookupField fields "answer".data,
        lookupField fields "solution".data with
      | some p, some a, some sol => some (⟨p, a, sol⟩ : CleanProblem)
      | _, _, _ => none) = none
    rw [h]
    cases lookupField fields "problem".data <;>
      cases lookupField fields "solution".data <;> rfl
  · intro l
    rfl

/-- Witness for C8 (amended) on concrete runs: a malformed middle response
is skipped in both stages, and the problems-stage field filter drops an
entry missing `answer`. -/
theorem stage_error_isolation_witness :
    problemsStage setup_database
      [(JVal.str "oops".data, "T1".data, []), (JVal.str "oops".data, "T2".data, [])]
      = problemsStage setup_database [(JVal.str "oops".data, "T1".data, [])]
    ∧ (generate_topic_breakdowns ["A".data, "B".data]
        (fun _ => JVal.str "bad".data)).2
      = (generate_topic_breakdowns ["A".data] (fun _ => JVal.str "bad".data)).2
    ∧ entryToClean (JVal.obj [("problem".data, JVal.str "p".data),
        ("solution".data, JVal.str "s".data)]) = none := by
  refine ⟨?_, ?_, ?_⟩
  · exact stage_error_isolation.1 setup_database
      [(JVal.str "oops".data, "T1".data, [])] []
      (JVal.str "oops".data, "T2".data, []) rfl
  · exact stage_error_isolation.2.1 (fun _ => JVal.str "bad".data)
      ["A".data] [] "B".data rfl
  · exact stage_error_isolation.2.2.1
      [("problem".data, JVal.str "p".data), ("solution".data, JVal.str "s".data)] rfl

/-! ### Claims about problem persistence -/

theorem saveTagLink_state {pid : Nat} {db db' : DB} {t : List Char}
    (h : saveTagLink pid db t = some db') :
    db'.problems = db.problems ∧ db'.problems_seq = db.problems_seq := by
  have h1 : (upsertTag db t).problems = db.problems := by
    unfold upsertTag
    split <;> rfl
  have h2 : (upsertTag db t).problems_seq = db.problems_seq := by
    unfold upsertTag
    split <;> rfl
  unfold saveTagLink at h
  cases hl : lookupTagId (upsertTag db t) t with
  | none =>
    rw [hl] at h
    simp at h
  | some tid =>
    rw [hl] at h
    have h3 : insertProblemTag (upsertTag db t) pid tid = some db' := h
    unfold insertProblemTag at h3
    split at h3
    · simp at h3
    · rw [Option.some.injEq] at h3
      subst h3
      exact ⟨h1, h2⟩

theorem saveMany_state :
    ∀ (tags : List (List Char)) (pid : Nat) (db db' : DB),
      tags.foldlM (saveTagLink pid) db = some db' →
      db'.problems = db.problems ∧ db'.problems_seq = db.problems_seq := by
  intro tags
  induction tags with
  | nil =>
    intro pid db db' h
    simp only [List.foldlM_nil] at h
    cases h
    exact ⟨rfl, rfl⟩
  | cons t ts ih =>
    intro pid db db' h
    rw [List.foldlM_cons] at h
    cases hm : saveTagLink pid db t with
    | none =>
      rw [hm] at h
      simp at h
    | some dbm =>
      rw [hm] at h
      have h2 : ts.foldlM (saveTagLink pid) dbm = some db' := h
      have hrest := ih pid dbm db' h2
      have hstep := saveTagLink_state hm
      exact ⟨by rw [hrest.1, hstep.1], by rw [hrest.2, hstep.2]⟩

theorem save_problem_effect {db db' : DB} {p : CleanProblem} {title : List Char}
    {tags : List (List Char)}
    (h : save_problem_to_db db p title tags = some db') :
    db'.problems = db.problems
      ++ [⟨db.problems_seq, p.problem, p.answer, p.solution, title⟩]
    ∧ db'.problems_seq = db.problems_seq + 1 := by
  unfold save_problem_to_db at h
  have hm := saveMany_state tags db.problems_seq _ db' h
  exact ⟨hm.1, hm.2⟩

theorem entryAction_obj_eq (fields : List (List Char × JVal)) :
    entryAction (JVal.obj fields)
      = (if ((fields.find? (fun p => p.1 == "problem".data)).isSome
            && (fields.find? (fun p => p.1 == "answer".data)).isSome
            && (fields.find? (fun p => p.1 == "solution".data)).isSome) = true then
          match lookupField fields "problem".data, lookupField fields "answer".data,
              lookupField fields "solution".data with
          | some p, some a, some sol => some (some ⟨p, a, sol⟩)
          | _, _, _ => some none
        else some none) := rfl

theorem entryToClean_obj_eq (fields : List (List Char × JVal)) :
    entryToClean (JVal.obj fields)
      = (match lookupField fields "problem".data, lookupField fields "answer".data,
            lookupField fields "solution".data with
        | some p, some a, some sol => some ⟨p, a, sol⟩
        | _, _, _ => none) := rfl

theorem entryAction_obj (fields : List (List Char × JVal)) :
    entryAction (JVal.obj fields) = some (entryToClean (JVal.obj fields)) := by
  rw [entryAction_obj_eq, entryToClean_obj_eq]
  cases f1 : fields.find? (fun p => p.1 == "problem".data) <;>
    cases f2 : fields.find? (fun p => p.1 == "answer".data) <;>
      cases f3 : fields.find? (fun p => p.1 == "solution".data) <;>
        simp [lookupField, f1, f2, f3]

theorem entryAction_str_eq (s : List Char) :
    entryAction (JVal.str s)
      = (if (strContains s "problem".data && strContains s "answer".data
            && strContains s "solution".data) = true then none else some none) := rfl

theorem entryAction_arr_eq (l : List JVal) :
    entryAction (JVal.arr l)
      = (if (l.any (fun v => jvalIsStr "problem".data v)
            && l.any (fun v => jvalIsStr "answer".data v)
            && l.any (fun v => jvalIsStr "solution".data v)) = true then none
        else some none) := rfl

theorem entryAction_some {e : JVal} {o : Option CleanProblem}
    (h : entryAction e = some o) : entryToClean e = o := by
  cases e with
  | obj fields =>
    rw [entryAction_obj] at h
    rw [Option.some.injEq] at h
    exact h
  | str s =>
    rw [entryAction_str_eq] at h
    split at h
    · simp at h
    · rw [Option.some.injEq] at h
      rw [← h]
      rfl
  | arr l =>
    rw [entryAction_arr_eq] at h
    split at h
    · simp at h
    · rw [Option.some.injEq] at h
      rw [← h]
      rfl
  | other =>
    have hno : entryAction JVal.other = none := rfl
    rw [hno] at h
    simp at h

theorem processProblemsBatch_cons (db : DB) (e : JVal) (rest : List JVal)
    (title : List Char) (tags : List (List Char)) :
    processProblemsBatch db (e :: rest) title tags
      = match entryAction e with
        | some (some p) =>
          match save_problem_to_db db p title tags with
          | some db2 => processProblemsBatch db2 rest title tags
          | none => none
        | some none => processProblemsBatch db rest title tags
        | none => none := by
  unfold processProblemsBatch
  rw [List.foldlM_cons]
  cases entryAction e with
  | none => rfl
  | some o =>
    cases o with
    | none => rfl
    | some p =>
      show (save_problem_to_db db p title tags >>= fun b =>
          List.foldlM
            (fun db e =>
              match entryAction e with
              | some (some p) => save_problem_to_db db p title tags
              | some none => some db
              | none => none) b rest)
        = match save_problem_to_db db p title tags with
          | some db2 => processProblemsBatch db2 rest title tags
          | none => none
      cases save_problem_to_db db p title tags with
      | none => rfl
      | some db2 => rfl

theorem processProblemsBatch_problems :
    ∀ (batch : List JVal) (db db' : DB) (title : List Char) (tags : List (List Char)),
      processProblemsBatch db batch title tags = some db' →
      db'.problems.map (fun r => (r.problem, r.answer, r.solution))
        = db.problems.map (fun r => (r.problem, r.answer, r.solution))
          ++ (batch.filterMap entryToClean).map
              (fun p => (p.problem, p.answer, p.solution)) := by
  intro batch
  induction batch with
  | nil =>
    intro db db' title tags h
    unfold processProblemsBatch at h
    simp only [List.foldlM_nil] at h
    cases h
    simp
  | cons e rest ih =>
    intro db db' title tags h
    rw [processProblemsBatch_cons] at h
    cases ha : entryAction e with
    | none =>
      rw [ha] at h
      simp at h
    | some o =>
      rw [ha] at h
      have hclean : entryToClean e = o := entryAction_some ha
      cases o with
      | none =>
        have h2 : processProblemsBatch db rest title tags = some db' := h
        rw [ih db db' title tags h2, List.filterMap_cons, hclean]
      | some p =>
        have h2 : (match save_problem_to_db db p title tags with
            | some db2 => processProblemsBatch db2 rest title tags
            | none => none) = some db' := h
        cases hs : save_problem_to_db db p title tags with
        | none =>
          rw [hs] at h2
          simp at h2
        | some dbm =>
          rw [hs] at h2
          have h3 : processProblemsBatch dbm rest title tags = some db' := h2
          have heff := save_problem_effect hs
          rw [ih dbm db' title tags h3, heff.1, List.filterMap_cons, hclean]
          simp

/-- Claim C4: the problem-generation stage persists exactly the batch
entries carrying all three text fields, in order; for a batch of three
entries where the middle one lacks `answer`, exactly two rows reach the
store. -/
theorem generate_problems_persists_required_fields :
    (∀ (db : DB) (batch : List JVal) (title : List Char) (tags : List (List Char))
        (db' : DB),
      processProblemsBatch db batch title tags = some db' →
      db'.problems.map (fun r => (r.problem, r.answer, r.solution))
        = db.problems.map (fun r => (r.problem, r.answer, r.solution))
          ++ (batch.filterMap entryToClean).map
              (fun p => (p.problem, p.answer, p.solution)))
    ∧ (∀ (db : DB) (e1 : JVal) (fields2 : List (List Char × JVal)) (e3 : JVal)
        (title : List Char) (tags : List (List Char)) (db' : DB),
      (entryToClean e1).isSome = true →
      lookupField fields2 "answer".data = none →
      (entryToClean e3).isSome = true →
      processProblemsBatch db [e1, JVal.obj fields2, e3] title tags = some db' →
      db'.problems.length = db.problems.length + 2) := by
  have hA := processProblemsBatch_problems
  refine ⟨fun db batch title tags db' h => hA batch db db' title tags h, ?_⟩
  intro db e1 fields2 e3 title tags db' h1 h2 h3 hrun
  have hmap := hA [e1, JVal.obj fields2, e3] db db' title tags hrun
  have hmid : entryToClean (JVal.obj fields2) = none := by
    rw [entryToClean_obj_eq, h2]
    cases lookupField fields2 "problem".data <;>
      cases lookupField fields2 "solution".data <;> rfl
  rcases Option.isSome_iff_exists.mp h1 with ⟨p1, hp1⟩
  rcases Option.isSome_iff_exists.mp h3 with ⟨p3, hp3⟩
  have hfm : ([e1, JVal.obj fields2, e3].filterMap entryToClean) = [p1, p3] := by
    rw [List.filterMap_cons, hp1, List.filterMap_cons, hmid, List.filterMap_cons, hp3]
    rfl
  have hlen := congrArg List.length hmap
  simp only [List.length_map, List.length_append, hfm] at hlen
  simpa using hlen

/-- Witness for C4 at a concrete three-entry batch on a fresh store. -/
theorem generate_problems_persists_required_fields_witness :
    ∃ db', processProblemsBatch setup_database
        [JVal.obj [("problem".data, JVal.str "p1".data),
                   ("answer".data, JVal.str "a1".data),
                   ("solution".data, JVal.str "s1".data)],
         JVal.obj [("problem".data, JVal.str "p2".data),
                   ("solution".data, JVal.str "s2".data)],
         JVal.obj [("problem".data, JVal.str "p3".data),
                   ("answer".data, JVal.str "a3".data),
                   ("solution".data, JVal.str "s3".data)]]
        "T".data [] = some db'
      ∧ db'.problems.length = setup_database.problems.length + 2 := by
  refine ⟨_, rfl, ?_⟩
  exact generate_problems_persists_required_fields.2 setup_database
    (JVal.obj [("problem".data, JVal.str "p1".data),
               ("answer".data, JVal.str "a1".data),
               ("solution".data, JVal.str "s1".data)])
    [("problem".data, JVal.str "p2".data), ("solution".data, JVal.str "s2".data)]
    (JVal.obj [("problem".data, JVal.str "p3".data),
               ("answer".data, JVal.str "a3".data),
               ("solution".data, JVal.str "s3".data)])
    "T".data [] _ rfl rfl rfl rfl

/-! ### Claims about tag upsert idempotence -/

theorem tags_any_iff (l : List TagRow) (t : List Char) :
    l.any (fun r => r.name == t) = true ↔ t ∈ l.map (fun r => r.name) := by
  rw [List.any_eq_true]
  constructor
  · rintro ⟨r, hr, hbe⟩
    exact List.mem_map.mpr ⟨r, hr, by simpa using hbe⟩
  · intro h
    rcases List.mem_map.mp h with ⟨r, hr, hname⟩
    exact ⟨r, hr, by simp [hname]⟩

theorem find?_name_none {l : List TagRow} {t : List Char}
    (h : t ∉ l.map (fun r => r.name)) :
    l.find? (fun r => r.name == t) = none := by
  rw [List.find?_eq_none]
  intro x hx
  simp only [beq_iff_eq]
  intro he
  exact h (List.mem_map.mpr ⟨x, hx, he⟩)

theorem find?_append_right {l₁ l₂ : List TagRow} {p : TagRow → Bool}
    (h : l₁.find? p = none) : (l₁ ++ l₂).find? p = l₂.find? p := by
  induction l₁ with
  | nil => simp
  | cons r l ih =>
    by_cases hp : p r = true
    · rw [List.find?_cons_of_pos l hp] at h
      simp at h
    · rw [List.find?_cons_of_neg l (by simpa using hp)] at h
      rw [List.cons_append, List.find?_cons_of_neg _ (by simpa using hp)]
      exact ih h

theorem foldlM_single (f : DB → List Char → Option DB) (b : DB) (t : List Char) :
    [t].foldlM f b = f b t := by
  rw [List.foldlM_cons]
  cases f b t with
  | none => rfl
  | some x => rfl

theorem foldlM_pair (f : DB → List Char → Option DB) (b : DB) (t1 t2 : List Char) :
    [t1, t2].foldlM f b
      = match f b t1 with
        | some b2 => f b2 t2
        | none => none := by
  rw [List.foldlM_cons]
  cases f b t1 with
  | none => rfl
  | some b2 =>
    show [t2].foldlM f b2 = f b2 t2
    exact foldlM_single f b2 t2

theorem saveTagLink_fresh (db : DB) (pid : Nat) (t : List Char)
    (hfresh : t ∉ db.tags.map (fun r => r.name))
    (hnotin : (pid, db.tags_seq) ∉ db.problem_tags) :
    saveTagLink pid db t = some
      { db with
        tags := db.tags ++ [⟨db.tags_seq, t⟩],
        tags_seq := db.tags_seq + 1,
        problem_tags := db.problem_tags ++ [(pid, db.tags_seq)] } := by
  have hany : db.tags.any (fun r => r.name == t) = false := by
    cases hq : db.tags.any (fun r => r.name == t)
    · rfl
    · exact absurd ((tags_any_iff db.tags t).mp hq) hfresh
  have hup : upsertTag db t
      = { db with
          tags := db.tags ++ [⟨db.tags_seq, t⟩],
          tags_seq := db.tags_seq + 1 } := by
    unfold upsertTag
    rw [hany]
    simp
  have hfind : ((db.tags ++ [(⟨db.tags_seq, t⟩ : TagRow)]).find? (fun r => r.name == t))
      = some ⟨db.tags_seq, t⟩ := by
    rw [find?_append_right (find?_name_none hfresh)]
    exact List.find?_cons_of_pos _ (by simp)
  unfold saveTagLink lookupTagId insertProblemTag
  rw [hup]
  simp only [hfind, Option.map_some']
  simp [hnotin]

theorem saveTagLink_existing (db : DB) (pid : Nat) (t : List Char) (row : TagRow)
    (hfind : db.tags.find? (fun r => r.name == t) = some row)
    (hnotin : (pid, row.id) ∉ db.problem_tags) :
    saveTagLink pid db t = some
      { db with problem_tags := db.problem_tags ++ [(pid, row.id)] } := by
  have hany : db.tags.any (fun r => r.name == t) = true :=
    List.any_eq_true.mpr ⟨row, List.mem_of_find?_eq_some hfind,
      by simpa using List.find?_some hfind⟩
  have hup : upsertTag db t = db := by
    unfold upsertTag
    rw [hany]
    simp
  unfold saveTagLink lookupTagId insertProblemTag
  rw [hup]
  simp only [hfind, Option.map_some']
  simp [hnotin]

theorem saveTagLink_dup (db : DB) (pid : Nat) (t : List Char) (row : TagRow)
    (hfind : db.tags.find? (fun r => r.name == t) = some row)
    (hin : (pid, row.id) ∈ db.problem_tags) :
    saveTagLink pid db t = none := by
  have hany : db.tags.any (fun r => r.name == t) = true :=
    List.any_eq_true.mpr ⟨row, List.mem_of_find?_eq_some hfind,
      by simpa using List.find?_some hfind⟩
  have hup : upsertTag db t = db := by
    unfold upsertTag
    rw [hany]
    simp
  unfold saveTagLink lookupTagId insertProblemTag
  rw [hup]
  simp only [hfind, Option.map_some']
  simp [hin]

/-- Claim C5: tag upsert is idempotent.  Saving two problems with the same
fresh tag name leaves exactly one `tags` row for that name (names stay
unique) and one `problem_tags` row per problem for that tag; re-linking the
same (problem_id, tag_id) pair within one save raises on the composite
primary key instead of creating a duplicate row. -/
theorem tag_upsert_idempotent :
    (∀ (db : DB) (p1 p2 : CleanProblem) (ti1 ti2 t : List Char) (db1 db2 : DB),
      dbWf db → t ∉ db.tags.map (fun r => r.name) →
      save_problem_to_db db p1 ti1 [t] = some db1 →
      save_problem_to_db db1 p2 ti2 [t] = some db2 →
      (db2.tags.filter (fun r => r.name == t)).length = 1
      ∧ (db2.tags.map (fun r => r.name)).Nodup
      ∧ db2.problem_tags.filter (fun pr => pr.2 == db.tags_seq)
          = [(db.problems_seq, db.tags_seq), (db1.problems_seq, db.tags_seq)])
    ∧ (∀ (db : DB) (p : CleanProblem) (ti t : List Char),
      dbWf db → save_problem_to_db db p ti [t, t] = none) := by
  constructor
  · intro db p1 p2 ti1 ti2 t db1 db2 hwf hfresh hs1 hs2
    obtain ⟨hNn, hNi, hTid, hPid, hP1, hP2⟩ := hwf
    unfold save_problem_to_db at hs1
    rw [foldlM_single] at hs1
    set R1 : DB := { db with
      problems := db.problems
        ++ [⟨db.problems_seq, p1.problem, p1.answer, p1.solution, ti1⟩],
      problems_seq := db.problems_seq + 1 } with hR1
    rw [saveTagLink_fresh R1 db.problems_seq t ?hf1 ?hn1] at hs1
    case hf1 => exact hfresh
    case hn1 =>
      show (db.problems_seq, db.tags_seq) ∉ db.problem_tags
      intro hm
      have := hP1 _ hm
      simp at this
    rw [Option.some.injEq] at hs1
    have hdb1tags : db1.tags = db.tags ++ [⟨db.tags_seq, t⟩] := by rw [← hs1]
    have hdb1pt : db1.problem_tags
        = db.problem_tags ++ [(db.problems_seq, db.tags_seq)] := by rw [← hs1]
    have hdb1pseq : db1.problems_seq = db.problems_seq + 1 := by rw [← hs1]
    unfold save_problem_to_db at hs2
    rw [foldlM_single] at hs2
    set R2 : DB := { db1 with
      problems := db1.problems
        ++ [⟨db1.problems_seq, p2.problem, p2.answer, p2.solution, ti2⟩],
      problems_seq := db1.problems_seq + 1 } with hR2
    have hfind1 : db.tags.find? (fun r => r.name == t) = none := find?_name_none hfresh
    rw [saveTagLink_existing R2 db1.problems_seq t ⟨db.tags_seq, t⟩ ?hf2 ?hn2] at hs2
    case hf2 =>
      show db1.tags.find? (fun r => r.name == t) = some ⟨db.tags_seq, t⟩
      rw [hdb1tags, find?_append_right hfind1]
      exact List.find?_cons_of_pos _ (by simp)
    case hn2 =>
      show (db1.problems_seq, db.tags_seq) ∉ db1.problem_tags
      rw [hdb1pt, hdb1pseq]
      intro hm
      rcases List.mem_append.mp hm with hm1 | hm2
      · have := hP1 _ hm1
        simp at this
      · simp at hm2
    rw [Option.some.injEq] at hs2
    have hdb2tags : db2.tags = db.tags ++ [⟨db.tags_seq, t⟩] := by
      rw [← hs2]
      exact hdb1tags
    have hdb2pt : db2.problem_tags
        = (db.problem_tags ++ [(db.problems_seq, db.tags_seq)])
          ++ [(db1.problems_seq, db.tags_seq)] := by
      rw [← hs2]
      show db1.problem_tags ++ [(db1.problems_seq, db.tags_seq)] = _
      rw [hdb1pt]
    refine ⟨?_, ?_, ?_⟩
    · rw [hdb2tags, List.filter_append]
      have hnil : db.tags.filter (fun r => r.name == t) = [] := by
        apply List.filter_eq_nil_iff.mpr
        intro r hr
        show ¬ (r.name == t) = true
        simp only [beq_iff_eq]
        exact fun he => hfresh (List.mem_map.mpr ⟨r, hr, he⟩)
      rw [hnil]
      simp
    · rw [hdb2tags, List.map_append]
      simp only [List.map_cons, List.map_nil]
      rw [List.nodup_append]
      refine ⟨hNn, by simp, ?_⟩
      intro x hx
      simp only [List.mem_cons, List.not_mem_nil, or_false]
      intro he
      subst he
      exact hfresh hx
    · rw [hdb2pt, List.filter_append, List.filter_append]
      have hnil : db.problem_tags.filter (fun pr => pr.2 == db.tags_seq) = [] := by
        apply List.filter_eq_nil_iff.mpr
        intro pr hpr
        show ¬ (pr.2 == db.tags_seq) = true
        simp only [beq_iff_eq]
        have := hP2 _ hpr
        omega
      rw [hnil]
      simp
  · intro db p ti t hwf
    obtain ⟨hNn, hNi, hTid, hPid, hP1, hP2⟩ := hwf
    unfold save_problem_to_db
    rw [foldlM_pair]
    set R : DB := { db with
      problems := db.problems
        ++ [⟨db.problems_seq, p.problem, p.answer, p.solution, ti⟩],
      problems_seq := db.problems_seq + 1 } with hR
    by_cases hmem : t ∈ db.tags.map (fun r => r.name)
    · have hsome : (db.tags.find? (fun r => r.name == t)).isSome := by
        rw [List.find?_isSome]
        rcases List.mem_map.mp hmem with ⟨r, hr, hname⟩
        exact ⟨r, hr, by simp [hname]⟩
      rcases Option.isSome_iff_exists.mp hsome with ⟨row, hrow⟩
      rw [saveTagLink_existing R db.problems_seq t row ?hf3 ?hn3]
      case hf3 => exact hrow
      case hn3 =>
        show (db.problems_seq, row.id) ∉ db.problem_tags
        intro hm
        have := hP1 _ hm
        simp at this
      apply saveTagLink_dup _ db.problems_seq t row
      · exact hrow
      · show (db.problems_seq, row.id) ∈ db.problem_tags ++ [(db.problems_seq, row.id)]
        simp
    · rw [saveTagLink_fresh R db.problems_seq t ?hf4 ?hn4]
      case hf4 => exact hmem
      case hn4 =>
        show (db.problems_seq, db.tags_seq) ∉ db.problem_tags
        intro hm
        have := hP1 _ hm
        simp at this
      apply saveTagLink_dup _ db.problems_seq t ⟨db.tags_seq, t⟩
      · show (db.tags ++ [(⟨db.tags_seq, t⟩ : TagRow)]).find? (fun r => r.name == t)
          = some ⟨db.tags_seq, t⟩
        rw [find?_append_right (find?_name_none hmem)]
        exact List.find?_cons_of_pos _ (by simp)
      · show (db.problems_seq, db.tags_seq)
          ∈ db.problem_tags ++ [(db.problems_seq, db.tags_seq)]
        simp

/-- Witness for C5 on a fresh store: two saves with the same tag, then a
save linking the same pair twice. -/
theorem tag_upsert_idempotent_witness :
    ∃ db1 db2,
      save_problem_to_db setup_database ⟨JVal.other, JVal.other, JVal.other⟩
        "T1".data ["algebra".data] = some db1
      ∧ save_problem_to_db db1 ⟨JVal.other, JVal.other, JVal.other⟩
        "T2".data ["algebra".data] = some db2
      ∧ (db2.tags.filter (fun r => r.name == "algebra".data)).length = 1
      ∧ db2.problem_tags.filter (fun pr => pr.2 == setup_database.tags_seq)
          = [(setup_database.problems_seq, setup_database.tags_seq),
             (db1.problems_seq, setup_database.tags_seq)]
      ∧ save_problem_to_db db2 ⟨JVal.other, JVal.other, JVal.other⟩
          "T3".data ["algebra".data, "algebra".data] = none := by
  refine ⟨_, _, rfl, rfl, ?_, ?_, ?_⟩
  · exact (tag_upsert_idempotent.1 setup_database
      ⟨JVal.other, JVal.other, JVal.other⟩ ⟨JVal.other, JVal.other, JVal.other⟩
      "T1".data "T2".data "algebra".data _ _ (by decide) (by decide) rfl rfl).1
  · exact (tag_upsert_idempotent.1 setup_database
      ⟨JVal.other, JVal.other, JVal.other⟩ ⟨JVal.other, JVal.other, JVal.other⟩
      "T1".data "T2".data "algebra".data _ _ (by decide) (by decide) rfl rfl).2.2
  · exact tag_upsert_idempotent.2 _
      ⟨JVal.other, JVal.other, JVal.other⟩ "T3".data "algebra".data (by decide)

/-! ### Claims about the query tool -/

theorem flatten_intersperse_append (sep a b : List Char) (l : List (List Char)) :
    (List.intersperse sep ((a ++ b) :: l)).flatten
      = a ++ (List.intersperse sep (b :: l)).flatten := by
  cases l with
  | nil => simp [List.intersperse]
  | cons z zs =>
    rw [List.intersperse_cons_cons, List.intersperse_cons_cons]
    simp [List.append_assoc]

theorem foldl_sep_eq_intercalate (sep : List Char) :
    ∀ (xs : List (List Char)) (x : List Char),
      xs.foldl (fun acc s => acc ++ sep ++ s) x
        = (List.intersperse sep (x :: xs)).flatten := by
  intro xs
  induction xs with
  | nil => intro x; simp [List.intersperse]
  | cons y ys ih =>
    intro x
    rw [List.foldl_cons, ih (x ++ sep ++ y), List.intersperse_cons_cons]
    have h1 : x ++ sep ++ y = (x ++ sep) ++ y := by simp [List.append_assoc]
    rw [h1, flatten_intersperse_append]
    simp [List.append_assoc]

theorem sqlGroupConcat_intercalate (l : List (List Char)) (hne : l ≠ []) :
    sqlGroupConcat l = some (List.intercalate ", ".data l) := by
  cases l with
  | nil => exact absurd rfl hne
  | cons x xs =>
    show some (xs.foldl (fun acc s => acc ++ ", ".data ++ s) x)
      = some (List.intercalate ", ".data (x :: xs))
    rw [foldl_sep_eq_intercalate]
    simp [List.intercalate]

theorem hasTag_mem_tagNames (db : DB) (pid : Nat) (t : List Char)
    (hids : (db.tags.map (fun r => r.id)).Nodup)
    (h : hasTag db pid t = true) : t ∈ tagNamesOf db pid := by
  unfold hasTag at h
  rw [List.any_eq_true] at h
  rcases h with ⟨pr, hpr, hcond⟩
  rw [Bool.and_eq_true] at hcond
  obtain ⟨hfst, hsnd⟩ := hcond
  rw [List.any_eq_true] at hsnd
  rcases hsnd with ⟨row, hrow, hrowc⟩
  rw [Bool.and_eq_true] at hrowc
  obtain ⟨hid, hname⟩ := hrowc
  unfold tagNamesOf
  apply List.mem_filterMap.mpr
  refine ⟨pr, List.mem_filter.mpr ⟨hpr, hfst⟩, ?_⟩
  have hsome : (db.tags.find? (fun r => r.id == pr.2)).isSome := by
    rw [List.find?_isSome]
    exact ⟨row, hrow, hid⟩
  rcases Option.isSome_iff_exists.mp hsome with ⟨row2, hrow2⟩
  have h1 : row2 ∈ db.tags := List.mem_of_find?_eq_some hrow2
  have h2 : (row2.id == pr.2) = true := by simpa using List.find?_some hrow2
  have hrr : row2 = row := by
    apply List.inj_on_of_nodup_map hids h1 hrow
    rw [beq_iff_eq] at h2 hid
    rw [h2, hid]
  rw [hrow2, hrr]
  rw [beq_iff_eq] at hname
  simp [hname]

/-- Claim C6: the query tool's `list` with a tag filter returns only
problems whose tag set includes the given tag, in table (insertion)
order, with each problem's tags aggregated as one comma-joined string. -/
theorem query_list_tag_filter (db : DB) (t : List Char) (hwf : dbWf db) :
    (∀ r ∈ list_problems db (some t) none, t ∈ tagNamesOf db r.id)
    ∧ ((list_problems db (some t) none).map (fun r => r.id)).Sublist
        (db.problems.map (fun p => p.id))
    ∧ (∀ r ∈ list_problems db (some t) none,
        tagNamesOf db r.id ≠ []
        ∧ r.tags = some (List.intercalate ", ".data (tagNamesOf db r.id))) := by
  obtain ⟨hNn, hNi, hTid, hPid, hP1, hP2⟩ := hwf
  have hrows : list_problems db (some t) none
      = (db.problems.filter (fun p => hasTag db p.id t)).map
        (fun p => ⟨p.id, p.problem, p.prompt_title, sqlGroupConcat (tagNamesOf db p.id)⟩) := rfl
  have hmem : ∀ r ∈ list_problems db (some t) none,
      ∃ p ∈ db.problems, hasTag db p.id t = true
        ∧ r = ⟨p.id, p.problem, p.prompt_title, sqlGroupConcat (tagNamesOf db p.id)⟩ := by
    intro r hr
    rw [hrows] at hr
    rcases List.mem_map.mp hr with ⟨p, hp, hrp⟩
    have hpf := List.mem_filter.mp hp
    exact ⟨p, hpf.1, hpf.2, hrp.symm⟩
  refine ⟨?_, ?_, ?_⟩
  · intro r hr
    rcases hmem r hr with ⟨p, _, htag, hrp⟩
    rw [hrp]
    exact hasTag_mem_tagNames db p.id t hNi htag
  · rw [hrows, List.map_map]
    have : ((fun r : QueryRow => r.id) ∘
        (fun p : ProblemRow =>
          (⟨p.id, p.problem, p.prompt_title, sqlGroupConcat (tagNamesOf db p.id)⟩ : QueryRow)))
        = fun p : ProblemRow => p.id := rfl
    rw [this]
    exact (List.filter_sublist db.problems).map (fun p => p.id)
  · intro r hr
    rcases hmem r hr with ⟨p, _, htag, hrp⟩
    have hmemt : t ∈ tagNamesOf db p.id := hasTag_mem_tagNames db p.id t hNi htag
    have hne : tagNamesOf db p.id ≠ [] := by
      intro h0
      rw [h0] at hmemt
      simp at hmemt
    rw [hrp]
    exact ⟨hne, by
      show sqlGroupConcat (tagNamesOf db p.id)
        = some (List.intercalate ", ".data (tagNamesOf db p.id))
      exact sqlGroupConcat_intercalate _ hne⟩

/-- Witness for C6 on a concrete two-problem store. -/
theorem query_list_tag_filter_witness :
    ((list_problems
        ⟨[⟨1, JVal.other, JVal.other, JVal.other, "T".data⟩,
          ⟨2, JVal.other, JVal.other, JVal.other, "T".data⟩],
         [⟨1, "algebra".data⟩, ⟨2, "geometry".data⟩],
         [(1, 1), (2, 2)], 3, 3⟩
        (some "algebra".data) none).map (fun r => r.id)).Sublist
      ((⟨[⟨1, JVal.other, JVal.other, JVal.other, "T".data⟩,
          ⟨2, JVal.other, JVal.other, JVal.other, "T".data⟩],
         [⟨1, "algebra".data⟩, ⟨2, "geometry".data⟩],
         [(1, 1), (2, 2)], 3, 3⟩ : DB).problems.map (fun p => p.id)) :=
  (query_list_tag_filter
    ⟨[⟨1, JVal.other, JVal.other, JVal.other, "T".data⟩,
      ⟨2, JVal.other, JVal.other, JVal.other, "T".data⟩],
     [⟨1, "algebra".data⟩, ⟨2, "geometry".data⟩],
     [(1, 1), (2, 2)], 3, 3⟩
    "algebra".data (by decide)).2.1
